import Mathlib

/-!
# OpenBLT CAN driver for ARM7 LPC2000 (`Target/Source/ARM7_LPC2000/can.c`)

A shallow embedding of the bit-timing search (`CanGetSpeedConfig`), the blocking transmit
(`CanTransmitPacket`) and the polling receive (`CanReceivePacket`), together with the
properties of these functions.

Conventions of the embedding:

* machine integers are natural numbers; a conversion to a `w`-bit unsigned type is an
  explicit `% 2 ^ w`;
* the configuration macros of `boot.h`/`config.h` (`BOOT_CPU_SYSTEM_SPEED_KHZ`,
  `BOOT_COM_CAN_TX_MSG_ID`, `BOOT_COM_CAN_RX_MSG_ID`) are parameters;
* the memory-mapped registers are the values of `Machine.regs`; every volatile access and
  every call of the watchdog hook `CopService` is appended to a chronological log.
-/

namespace OpenBLT

/-! ## Bit-timing table and search -/

/-- Bus timing structure type `tCanBusTiming`: the two time segments, in time quanta. -/
structure tCanBusTiming where
  tseg1 : Nat
  tseg2 : Nat
  deriving DecidableEq, Repr

/-- The table `canTiming[]`, in source order (total quanta 8 up to 25). -/
def canTiming : List tCanBusTiming :=
  [ ⟨5, 2⟩, ⟨6, 2⟩, ⟨6, 3⟩, ⟨7, 3⟩, ⟨8, 3⟩, ⟨9, 3⟩, ⟨9, 4⟩, ⟨10, 4⟩, ⟨11, 4⟩,
    ⟨12, 4⟩, ⟨12, 5⟩, ⟨13, 5⟩, ⟨14, 5⟩, ⟨15, 5⟩, ⟨15, 6⟩, ⟨16, 6⟩, ⟨16, 7⟩, ⟨16, 8⟩ ]

/-- Body of the `for` loop of `CanGetSpeedConfig`, run over the table entries that are still
to be visited. `clock` is `BOOT_CPU_SYSTEM_SPEED_KHZ`, `baud` the 16-bit parameter and `btr`
the current content of `*btr`. The result is `none` when the `%` of the source divides by
zero (undefined behaviour), otherwise the returned flag and the content of `*btr`.
The local `prescaler` is a `blt_int16u`, hence the `% 2 ^ 16` on the quotient. -/
def CanGetSpeedConfig.loop (clock baud btr : Nat) : List tCanBusTiming → Option (Bool × Nat)
  | [] => some (false, btr)
  | t :: rest =>
    if baud * (t.tseg1 + t.tseg2 + 1) = 0 then none
    else if clock % (baud * (t.tseg1 + t.tseg2 + 1)) = 0 then
      let prescaler := (clock / (baud * (t.tseg1 + t.tseg2 + 1))) % 2 ^ 16
      if prescaler > 0 ∧ prescaler ≤ 1024 then
        let btr1 := (prescaler - 1) % 2 ^ 32
        some (true, btr1 ||| ((((t.tseg2 - 1) <<< 20) ||| ((t.tseg1 - 1) <<< 16)) % 2 ^ 32))
      else CanGetSpeedConfig.loop clock baud btr rest
    else CanGetSpeedConfig.loop clock baud btr rest

/-- The function `CanGetSpeedConfig(baud, btr)`: scan `canTiming` from its first entry. -/
def CanGetSpeedConfig (clock baud btr : Nat) : Option (Bool × Nat) :=
  CanGetSpeedConfig.loop clock baud btr canTiming

/-- Total number of time quanta of a table entry, `tseg1 + tseg2 + 1`. -/
def totalQuanta (t : tCanBusTiming) : Nat := t.tseg1 + t.tseg2 + 1

/-- A table entry is a valid candidate for `(clock, baud)` when the clock is an exact multiple
of `baud * totalQuanta` and the exact quotient lies in `1..1024`. -/
def validCandidate (clock baud : Nat) (t : tCanBusTiming) : Prop :=
  clock % (baud * totalQuanta t) = 0 ∧
    1 ≤ clock / (baud * totalQuanta t) ∧ clock / (baud * totalQuanta t) ≤ 1024

instance validCandidate.decidable (clock baud : Nat) (t : tCanBusTiming) :
    Decidable (validCandidate clock baud t) := by
  unfold validCandidate; infer_instance

/-- The register value `(prescaler-1) | ((tseg2-1) << 20) | ((tseg1-1) << 16)` of an entry,
with the exact quotient as prescaler. -/
def btrValue (clock baud : Nat) (t : tCanBusTiming) : Nat :=
  (clock / (baud * totalQuanta t) - 1) ||| ((t.tseg2 - 1) <<< 20) ||| ((t.tseg1 - 1) <<< 16)

/-- The test the source applies to one table entry: exact divisibility and the 16-bit
`prescaler` variable in `1..1024`. -/
def loopAccepts (clock baud : Nat) (t : tCanBusTiming) : Prop :=
  clock % (baud * (t.tseg1 + t.tseg2 + 1)) = 0 ∧
    0 < (clock / (baud * (t.tseg1 + t.tseg2 + 1))) % 2 ^ 16 ∧
    (clock / (baud * (t.tseg1 + t.tseg2 + 1))) % 2 ^ 16 ≤ 1024

/-! ## Peripheral registers, access log and outcomes -/

/-- Status register bit: transmit buffer 1 idle. -/
def CAN_TBS1 : Nat := 0x00000004
/-- Status register bit: transmit buffer 1 complete. -/
def CAN_TCS1 : Nat := 0x00000008
/-- Command register value: receive buffer release. -/
def CAN_RRB : Nat := 0x04
/-- Status register bit: receive buffer status (a frame is pending). -/
def CAN_RBS : Nat := 0x01
/-- Command register bit: transmission request. -/
def CAN_TR : Nat := 0x01
/-- Command register bit: select tx buffer 1 for transmit. -/
def CAN_STB1 : Nat := 0x20

/-- The memory-mapped registers named in the register definitions of `can.c`. -/
inductive Reg
  | CANAFMR | CAN1MOD | CAN1IER | CAN1GSR | CAN1BTR | CAN1TFI1 | CAN1TID1 | CAN1TDA1
  | CAN1TDB1 | CAN1CMR | CAN1SR | CAN1RID | CAN1RDA | CAN1RDB
  deriving DecidableEq, Repr

/-- Width in bits of a register: `CANAFMR` is accessed as `blt_int8u`, the others as
`blt_int32u`. -/
def Reg.width : Reg → Nat
  | Reg.CANAFMR => 8
  | _ => 32

/-- One observable step of the driver: a volatile read, a volatile write, or a call of the
watchdog hook `CopService`. -/
inductive Event
  | read (r : Reg) (v : Nat)
  | write (r : Reg) (v : Nat)
  | cop
  deriving DecidableEq, Repr

/-- Whether an event is a register write. -/
def Event.isWrite : Event → Bool
  | Event.write _ _ => true
  | _ => false

/-- The peripheral as the driver sees it: for each register the value a read returns
(for a register the driver writes, the value last written), and the chronological log of the
driver's accesses. -/
structure Machine where
  regs : Reg → Nat
  log : List Event

/-- A volatile read: returns the register content and logs the access. -/
def Machine.read (m : Machine) (r : Reg) : Nat × Machine :=
  (m.regs r, { m with log := m.log ++ [Event.read r (m.regs r)] })

/-- A volatile write: the value is converted to the register's width, stored and logged. -/
def Machine.write (m : Machine) (r : Reg) (v : Nat) : Machine :=
  { regs := Function.update m.regs r (v % 2 ^ r.width),
    log := m.log ++ [Event.write r (v % 2 ^ r.width)] }

/-- The hardware replaces the content of a register (no driver access, nothing is logged). -/
def Machine.present (m : Machine) (r : Reg) (v : Nat) : Machine :=
  { m with regs := Function.update m.regs r v }

/-- Modelled from the spec: the watchdog-service hook `CopService` (its source file is not
among the sources at hand) takes no argument, returns nothing and does not touch the CAN
peripheral; a call is recorded in the log. -/
def Machine.CopService (m : Machine) : Machine :=
  { m with log := m.log ++ [Event.cop] }

/-- How a driver function ends: it returns, it stops in a failed run-time assertion, or the
bound on busy-wait iterations given to the model ran out while it was still waiting. -/
inductive Outcome (α : Type)
  | returned (a : α) (m : Machine)
  | assertFailed (m : Machine)
  | spinning (m : Machine)

/-- The machine at the end of an outcome. -/
def Outcome.machine {α : Type} : Outcome α → Machine
  | Outcome.returned _ m => m
  | Outcome.assertFailed m => m
  | Outcome.spinning m => m

/-- Modelled from the spec: the macro `ASSERT_RT` (its header is not among the sources at
hand). A run-time assertion whose condition is false is fatal: the function does not continue
past it. -/
def ASSERT_RT {α : Type} (cond : Bool) (m : Machine) (k : Machine → Outcome α) : Outcome α :=
  if cond then k m else Outcome.assertFailed m

/-- The configuration macros the driver reads: system clock in kHz, baudrate in bits per
second, transmit and receive message identifiers. -/
structure Config where
  BOOT_CPU_SYSTEM_SPEED_KHZ : Nat
  BOOT_COM_CAN_BAUDRATE : Nat
  BOOT_COM_CAN_TX_MSG_ID : Nat
  BOOT_COM_CAN_RX_MSG_ID : Nat

/-! ## Transmit -/

/-- The loop `while ((CAN1SR & CAN_TCS1) == 0) { CopService(); }`. `sr i` is the content of the
status register at the `i`-th evaluation of the loop condition (counted from 0); the first
argument bounds the number of evaluations the model performs. -/
def CanTransmitPacket.wait (sr : Nat → Nat) : Nat → Nat → Machine → Outcome Unit
  | 0, _, m => Outcome.spinning m
  | fuel + 1, i, m =>
    let (s, m1) := (m.present Reg.CAN1SR (sr i)).read Reg.CAN1SR
    if s &&& CAN_TCS1 = 0 then
      CanTransmitPacket.wait sr fuel (i + 1) m1.CopService
    else Outcome.returned () m1

/-- The function `CanTransmitPacket(data, len)`. The left shifts of the promoted bytes are
taken in two's complement without trapping, so each sum is exact before the conversion to the
32-bit register. -/
def CanTransmitPacket (cfg : Config) (sr : Nat → Nat) (fuel : Nat) (m : Machine)
    (data : Fin 8 → Nat) (len : Nat) : Outcome Unit :=
  let (s, m0) := m.read Reg.CAN1SR
  ASSERT_RT (s &&& CAN_TBS1 != 0) m0 fun m0 =>
    let m1 := m0.write Reg.CAN1TFI1 (len <<< 16)
    let m2 := m1.write Reg.CAN1TID1 cfg.BOOT_COM_CAN_TX_MSG_ID
    let m3 := m2.write Reg.CAN1TDA1 ((data 3 <<< 24) + (data 2 <<< 16) + (data 1 <<< 8) + data 0)
    let m4 := m3.write Reg.CAN1TDB1 ((data 7 <<< 24) + (data 6 <<< 16) + (data 5 <<< 8) + data 4)
    let m5 := m4.write Reg.CAN1CMR (CAN_TR ||| CAN_STB1)
    CanTransmitPacket.wait sr fuel 0 m5

/-! ## Receive -/

/-- The function `CanReceivePacket(data)`: the returned flag, the content of the caller's
8-byte buffer afterwards, and the machine afterwards. A cast to `blt_int8u` is `% 2 ^ 8`. -/
def CanReceivePacket (cfg : Config) (m : Machine) (data : Fin 8 → Nat) :
    Bool × (Fin 8 → Nat) × Machine :=
  let (s, m0) := m.read Reg.CAN1SR
  if s &&& CAN_RBS = 0 then (false, data, m0)
  else
    let (rid, m1) := m0.read Reg.CAN1RID
    if rid ≠ cfg.BOOT_COM_CAN_RX_MSG_ID then (false, data, m1)
    else
      let (a0, m2) := m1.read Reg.CAN1RDA
      let d0 := Function.update data 0 (a0 % 2 ^ 8)
      let (a1, m3) := m2.read Reg.CAN1RDA
      let d1 := Function.update d0 1 ((a1 >>> 8) % 2 ^ 8)
      let (a2, m4) := m3.read Reg.CAN1RDA
      let d2 := Function.update d1 2 ((a2 >>> 16) % 2 ^ 8)
      let (a3, m5) := m4.read Reg.CAN1RDA
      let d3 := Function.update d2 3 ((a3 >>> 24) % 2 ^ 8)
      let (b0, m6) := m5.read Reg.CAN1RDB
      let d4 := Function.update d3 4 (b0 % 2 ^ 8)
      let (b1, m7) := m6.read Reg.CAN1RDB
      let d5 := Function.update d4 5 ((b1 >>> 8) % 2 ^ 8)
      let (b2, m8) := m7.read Reg.CAN1RDB
      let d6 := Function.update d5 6 ((b2 >>> 16) % 2 ^ 8)
      let (b3, m9) := m8.read Reg.CAN1RDB
      let d7 := Function.update d6 7 ((b3 >>> 24) % 2 ^ 8)
      let m10 := m9.write Reg.CAN1CMR CAN_RRB
      (true, d7, m10)

/-! ## Auxiliary notions used in the statements -/

/-- The accesses of `k` rounds of the transmit busy-wait that start at poll number `i`: in
each round the status register is read with the completion bit clear and the watchdog hook is
called. -/
def spinEvents (sr : Nat → Nat) : Nat → Nat → List Event
  | 0, _ => []
  | k + 1, i => Event.read Reg.CAN1SR (sr i) :: Event.cop :: spinEvents sr k (i + 1)

/-- Calling `CanReceivePacket` `n` times in a row on the same buffer: the flags returned, the
buffer and the machine at the end. -/
def receiveRepeatedly (cfg : Config) : Nat → Machine → (Fin 8 → Nat) →
    List Bool × (Fin 8 → Nat) × Machine
  | 0, m, data => ([], data, m)
  | n + 1, m, data =>
    let r := CanReceivePacket cfg m data
    let rs := receiveRepeatedly cfg n r.2.2 r.2.1
    (r.1 :: rs.1, rs.2.1, rs.2.2)

/-! ## Sample point, explicit loop counter, reference search -/

/-- The sample point of a table entry as an exact fraction,
`(SYNC + TSEG1) / (SYNC + TSEG1 + TSEG2)` with `SYNC = 1` (table comment of `canTiming`). -/
def samplePoint (t : tCanBusTiming) : ℚ :=
  ((1 + t.tseg1 : Nat) : ℚ) / ((1 + t.tseg1 + t.tseg2 : Nat) : ℚ)

/-- How the counted run of the search loop ends: with the returned flag, the content of `*btr`
and the number of loop bodies executed; in a division by zero; in a table access outside the
table; or with the bound on loop steps given to the model used up. -/
inductive LoopEnd
  | done (flag : Bool) (btr : Nat) (iterations : Nat)
  | divByZero
  | outOfBounds
  | outOfFuel
  deriving DecidableEq, Repr

/-- The `for` loop of `CanGetSpeedConfig` with its counter explicit: `cnt` is the
`blt_int8u` loop variable (so `cnt++` is `(cnt + 1) % 2 ^ 8`), the loop condition is
`cnt < sizeof(canTiming)/sizeof(canTiming[0])`, the entry is read as `canTiming[cnt]`, and
`iterations` counts the loop bodies executed so far. The first argument bounds the number of
evaluations of the loop condition. -/
def CanGetSpeedConfig.count (clock baud : Nat) : Nat → Nat → Nat → Nat → LoopEnd
  | 0, _, _, _ => LoopEnd.outOfFuel
  | fuel + 1, cnt, btr, iterations =>
    if cnt < canTiming.length then
      match canTiming[cnt]? with
      | none => LoopEnd.outOfBounds
      | some t =>
        if baud * (t.tseg1 + t.tseg2 + 1) = 0 then LoopEnd.divByZero
        else if clock % (baud * (t.tseg1 + t.tseg2 + 1)) = 0 then
          let prescaler := (clock / (baud * (t.tseg1 + t.tseg2 + 1))) % 2 ^ 16
          if prescaler > 0 ∧ prescaler ≤ 1024 then
            let btr1 := (prescaler - 1) % 2 ^ 32
            LoopEnd.done true
              (btr1 ||| ((((t.tseg2 - 1) <<< 20) ||| ((t.tseg1 - 1) <<< 16)) % 2 ^ 32))
              (iterations + 1)
          else CanGetSpeedConfig.count clock baud fuel ((cnt + 1) % 2 ^ 8) btr (iterations + 1)
        else CanGetSpeedConfig.count clock baud fuel ((cnt + 1) % 2 ^ 8) btr (iterations + 1)
    else LoopEnd.done false btr iterations

/-- The reference search, following the words of the specification: scan the table from its
first entry, take the first entry that divides the clock exactly with the exact quotient
(not reduced to 16 bits) in `1..1024`, and encode it; fail when there is none. -/
def resolveReference (clock baud : Nat) : Option Nat :=
  (canTiming.find? (fun t => decide (validCandidate clock baud t))).map (btrValue clock baud)

/-! ## Initialisation -/

/-- The function `CanInit()`. `ASSERT_CT(BOOT_COM_CAN_CHANNEL_INDEX == 0)` is a compile-time
check without run-time effect. The argument `BOOT_COM_CAN_BAUDRATE/1000` is converted to the
`blt_int16u` parameter of `CanGetSpeedConfig`; `btr0` is the indeterminate initial content of
the local `btr_reg_value`. The result is `none` when `CanGetSpeedConfig` divides by zero. -/
def CanInit (cfg : Config) (btr0 : Nat) (m : Machine) : Option (Outcome Unit) :=
  let m1 := m.write Reg.CANAFMR 0x00000002
  let m2 := m1.write Reg.CAN1MOD 1
  let m3 := m2.write Reg.CAN1IER 0
  let m4 := m3.write Reg.CAN1GSR 0
  match CanGetSpeedConfig cfg.BOOT_CPU_SYSTEM_SPEED_KHZ
      ((cfg.BOOT_COM_CAN_BAUDRATE / 1000) % 2 ^ 16) btr0 with
  | none => none
  | some (result, btr_reg_value) =>
    some (ASSERT_RT (result == true) m4 fun m4 =>
      let m5 := m4.write Reg.CAN1BTR btr_reg_value
      let m6 := m5.write Reg.CAN1MOD 0
      Outcome.returned () m6)

/-- The register contents after the writes of a log have been applied, in order, to the
contents `regs`. -/
def replayWrites (regs : Reg → Nat) : List Event → (Reg → Nat)
  | [] => regs
  | Event.write r v :: es => replayWrites (Function.update regs r v) es
  | _ :: es => replayWrites regs es

/-! ## Concrete inputs used to instantiate the theorems -/

/-- A configuration: 48000 kHz clock, 500000 bits per second, transmit identifier 0x7E1 and
receive identifier 0x667. -/
def demoConfig : Config := ⟨48000, 500000, 0x7E1, 0x667⟩

/-- A machine with the given status, received identifier and receive data registers, every
other register zero and an empty log. -/
def demoMachine (status rid rda rdb : Nat) : Machine :=
  { regs := fun r =>
      match r with
      | Reg.CAN1SR => status
      | Reg.CAN1RID => rid
      | Reg.CAN1RDA => rda
      | Reg.CAN1RDB => rdb
      | _ => 0,
    log := [] }

/-- The payload 0x01, ..., 0x08. -/
def demoData : Fin 8 → Nat := ![0x01, 0x02, 0x03, 0x04, 0x05, 0x06, 0x07, 0x08]

/-! ## Properties of the bit-timing search -/

theorem canTiming_quanta : ∀ t ∈ canTiming, 8 ≤ totalQuanta t ∧ totalQuanta t ≤ 25 := by
  decide

theorem canTiming_segments :
    ∀ t ∈ canTiming, 2 ≤ t.tseg1 ∧ t.tseg1 ≤ 16 ∧ 2 ≤ t.tseg2 ∧ t.tseg2 ≤ 8 := by
  decide

theorem loop_skip (clock baud btr : Nat) (hb : baud ≠ 0) (pre rest : List tCanBusTiming)
    (hpre : ∀ u ∈ pre, ¬ loopAccepts clock baud u) :
    CanGetSpeedConfig.loop clock baud btr (pre ++ rest)
      = CanGetSpeedConfig.loop clock baud btr rest := by
  induction pre with
  | nil => rfl
  | cons u us ih =>
    have hu : ¬ loopAccepts clock baud u := hpre u (List.mem_cons_self _ _)
    have hus : ∀ v ∈ us, ¬ loopAccepts clock baud v :=
      fun v hv => hpre v (List.mem_cons_of_mem _ hv)
    have hd : baud * (u.tseg1 + u.tseg2 + 1) ≠ 0 := Nat.mul_ne_zero hb (by omega)
    simp only [List.cons_append, CanGetSpeedConfig.loop, if_neg hd]
    by_cases hm : clock % (baud * (u.tseg1 + u.tseg2 + 1)) = 0
    · have hr : ¬ ((clock / (baud * (u.tseg1 + u.tseg2 + 1))) % 2 ^ 16 > 0 ∧
          (clock / (baud * (u.tseg1 + u.tseg2 + 1))) % 2 ^ 16 ≤ 1024) :=
        fun h => hu ⟨hm, h.1, h.2⟩
      rw [if_pos hm, if_neg hr]
      exact ih hus
    · rw [if_neg hm]
      exact ih hus

theorem loop_hit (clock baud btr : Nat) (hb : baud ≠ 0) (t : tCanBusTiming)
    (post : List tCanBusTiming) (ht : loopAccepts clock baud t) :
    CanGetSpeedConfig.loop clock baud btr (t :: post)
      = some (true, (((clock / (baud * (t.tseg1 + t.tseg2 + 1))) % 2 ^ 16 - 1) % 2 ^ 32) |||
          ((((t.tseg2 - 1) <<< 20) ||| ((t.tseg1 - 1) <<< 16)) % 2 ^ 32)) := by
  have hd : baud * (t.tseg1 + t.tseg2 + 1) ≠ 0 := Nat.mul_ne_zero hb (by omega)
  have hr : (clock / (baud * (t.tseg1 + t.tseg2 + 1))) % 2 ^ 16 > 0 ∧
      (clock / (baud * (t.tseg1 + t.tseg2 + 1))) % 2 ^ 16 ≤ 1024 := ⟨ht.2.1, ht.2.2⟩
  simp only [CanGetSpeedConfig.loop, if_neg hd, if_pos ht.1, if_pos hr]

theorem loop_miss (clock baud btr : Nat) (hb : baud ≠ 0) (l : List tCanBusTiming)
    (hl : ∀ u ∈ l, ¬ loopAccepts clock baud u) :
    CanGetSpeedConfig.loop clock baud btr l = some (false, btr) := by
  have h := loop_skip clock baud btr hb l [] hl
  rw [List.append_nil] at h
  rw [h]; rfl

/-- A list with an element satisfying `p` splits at its first such element. -/
theorem exists_first_split {α : Type} (p : α → Prop) [DecidablePred p] (l : List α)
    (h : ∃ x ∈ l, p x) :
    ∃ pre t post, l = pre ++ t :: post ∧ (∀ u ∈ pre, ¬ p u) ∧ p t := by
  induction l with
  | nil => obtain ⟨x, hx, _⟩ := h; cases hx
  | cons a as ih =>
    by_cases ha : p a
    · exact ⟨[], a, as, rfl, by simp, ha⟩
    · obtain ⟨x, hx, hpx⟩ := h
      have hx2 : x ∈ as := by
        rcases List.mem_cons.mp hx with rfl | hx2
        · exact absurd hpx ha
        · exact hx2
      obtain ⟨pre, t, post, hl, hpre, ht⟩ := ih ⟨x, hx2, hpx⟩
      refine ⟨a :: pre, t, post, by rw [hl]; rfl, ?_, ht⟩
      intro u hu
      rcases List.mem_cons.mp hu with rfl | hu2
      · exact ha
      · exact hpre u hu2

/-- When some entry with at most 25 quanta is a valid candidate, the exact quotient of every
entry with at least 8 quanta is below `2 ^ 16`: the 16-bit `prescaler` holds it unchanged. -/
theorem quotient_small (clock baud : Nat) (t u : tCanBusTiming)
    (ht : validCandidate clock baud t) (htq : totalQuanta t ≤ 25) (huq : 8 ≤ totalQuanta u) :
    clock / (baud * totalQuanta u) < 2 ^ 16 := by
  obtain ⟨hm, h1, h2⟩ := ht
  have hb : 0 < baud := by
    rcases Nat.eq_zero_or_pos baud with h0 | h0
    · subst h0; simp at h1
    · exact h0
  have hc : clock = baud * totalQuanta t * (clock / (baud * totalQuanta t)) :=
    (Nat.mul_div_cancel' (Nat.dvd_of_mod_eq_zero hm)).symm
  have hle : clock ≤ baud * 25 * 1024 := by
    rw [hc]
    exact Nat.mul_le_mul (Nat.mul_le_mul_left baud htq) h2
  have hpos : 0 < baud * totalQuanta u := Nat.mul_pos hb (by omega)
  rw [Nat.div_lt_iff_lt_mul hpos]
  have h8 : baud * 8 ≤ baud * totalQuanta u := Nat.mul_le_mul_left baud huq
  have : 2 ^ 16 * (baud * 8) ≤ 2 ^ 16 * (baud * totalQuanta u) := Nat.mul_le_mul_left _ h8
  omega

theorem loopAccepts_iff_valid (clock baud : Nat) (u : tCanBusTiming)
    (hq : clock / (baud * totalQuanta u) < 2 ^ 16) :
    loopAccepts clock baud u ↔ validCandidate clock baud u := by
  unfold loopAccepts validCandidate totalQuanta at *
  rw [Nat.mod_eq_of_lt hq]
  constructor
  · rintro ⟨a, b, c⟩; exact ⟨a, b, c⟩
  · rintro ⟨a, b, c⟩; exact ⟨a, b, c⟩

/-- For a table entry and a prescaler in `1..1024` the stored word is the three fields side by
side: prescaler-1 in bits 0..9, tseg1-1 in bits 16..19, tseg2-1 in bits 20..22. -/
theorem stored_word (q : Nat) (t : tCanBusTiming) (ht : t ∈ canTiming) (h1 : 1 ≤ q)
    (h2 : q ≤ 1024) :
    (((q % 2 ^ 16 - 1) % 2 ^ 32) |||
        ((((t.tseg2 - 1) <<< 20) ||| ((t.tseg1 - 1) <<< 16)) % 2 ^ 32))
      = (q - 1) + 2 ^ 16 * (t.tseg1 - 1) + 2 ^ 20 * (t.tseg2 - 1) := by
  obtain ⟨a1, a2, b1, b2⟩ := canTiming_segments t ht
  have e1 : (q % 2 ^ 16 - 1) % 2 ^ 32 = q - 1 := by omega
  have e2 : (t.tseg2 - 1) <<< 20 ||| (t.tseg1 - 1) <<< 16
      = 2 ^ 20 * (t.tseg2 - 1) + 2 ^ 16 * (t.tseg1 - 1) := by
    rw [Nat.shiftLeft_eq, Nat.shiftLeft_eq, Nat.mul_comm _ (2 ^ 20), Nat.mul_comm _ (2 ^ 16)]
    exact (Nat.mul_add_lt_is_or (by omega) _).symm
  have e3 : (2 ^ 20 * (t.tseg2 - 1) + 2 ^ 16 * (t.tseg1 - 1)) % 2 ^ 32
      = 2 ^ 16 * (2 ^ 4 * (t.tseg2 - 1) + (t.tseg1 - 1)) := by omega
  rw [e1, e2, e3, Nat.lor_comm, ← Nat.mul_add_lt_is_or (by omega)]
  omega

theorem btrValue_eq_sum (clock baud : Nat) (t : tCanBusTiming) (ht : t ∈ canTiming)
    (h1 : 1 ≤ clock / (baud * totalQuanta t)) (h2 : clock / (baud * totalQuanta t) ≤ 1024) :
    btrValue clock baud t
      = (clock / (baud * totalQuanta t) - 1) + 2 ^ 16 * (t.tseg1 - 1)
          + 2 ^ 20 * (t.tseg2 - 1) := by
  have h := stored_word (clock / (baud * totalQuanta t)) t ht h1 h2
  obtain ⟨a1, a2, b1, b2⟩ := canTiming_segments t ht
  have e1 : (clock / (baud * totalQuanta t) % 2 ^ 16 - 1) % 2 ^ 32
      = clock / (baud * totalQuanta t) - 1 := by omega
  have e2 : (t.tseg2 - 1) <<< 20 ||| (t.tseg1 - 1) <<< 16 < 2 ^ 32 := by
    apply Nat.or_lt_two_pow
    · rw [Nat.shiftLeft_eq]; omega
    · rw [Nat.shiftLeft_eq]; omega
  rw [e1, Nat.mod_eq_of_lt e2] at h
  unfold btrValue
  rw [Nat.lor_assoc]
  exact h

/-- The search returns the word of the first valid candidate of the table. -/
theorem CanGetSpeedConfig_of_split (clock baud btr : Nat) (pre post : List tCanBusTiming)
    (t : tCanBusTiming) (hsplit : canTiming = pre ++ t :: post)
    (hpre : ∀ u ∈ pre, ¬ validCandidate clock baud u) (ht : validCandidate clock baud t) :
    CanGetSpeedConfig clock baud btr
      = some (true, (clock / (baud * totalQuanta t) - 1) + 2 ^ 16 * (t.tseg1 - 1)
          + 2 ^ 20 * (t.tseg2 - 1)) := by
  have htm : t ∈ canTiming := by rw [hsplit]; simp
  have hb : baud ≠ 0 := by
    rintro rfl
    have := ht.2.1
    simp at this
  have hsmall : ∀ u ∈ canTiming, clock / (baud * totalQuanta u) < 2 ^ 16 := fun u hu =>
    quotient_small clock baud t u ht (canTiming_quanta t htm).2 (canTiming_quanta u hu).1
  have hpre2 : ∀ u ∈ pre, ¬ loopAccepts clock baud u := by
    intro u hu hacc
    have hum : u ∈ canTiming := by rw [hsplit]; simp [hu]
    exact hpre u hu ((loopAccepts_iff_valid clock baud u (hsmall u hum)).mp hacc)
  have hacc : loopAccepts clock baud t :=
    (loopAccepts_iff_valid clock baud t (hsmall t htm)).mpr ht
  unfold CanGetSpeedConfig
  rw [hsplit, loop_skip clock baud btr hb pre (t :: post) hpre2,
    loop_hit clock baud btr hb t post hacc]
  have := stored_word (clock / (baud * totalQuanta t)) t htm ht.2.1 ht.2.2
  unfold totalQuanta at this ⊢
  rw [this]

/-- Below `80 * 65536` kHz and for a baudrate of at least 10 the 16-bit `prescaler` holds
every quotient unchanged, so without a valid candidate the search reports failure and leaves
`*btr` as it was. -/
theorem CanGetSpeedConfig_none_valid_small_clock (clock baud btr : Nat) (hlo : 10 ≤ baud)
    (hclk : clock < 80 * 65536) (h : ∀ t ∈ canTiming, ¬ validCandidate clock baud t) :
    CanGetSpeedConfig clock baud btr = some (false, btr) := by
  have hb : baud ≠ 0 := by omega
  apply loop_miss clock baud btr hb
  intro u hu hacc
  have hq := (canTiming_quanta u hu).1
  have hsmall : clock / (baud * totalQuanta u) < 2 ^ 16 := by
    have hpos : 0 < baud * totalQuanta u := Nat.mul_pos (by omega) (by omega)
    rw [Nat.div_lt_iff_lt_mul hpos]
    have h1 : 10 * 8 ≤ baud * totalQuanta u := Nat.mul_le_mul hlo hq
    have h2 : 2 ^ 16 * (10 * 8) ≤ 2 ^ 16 * (baud * totalQuanta u) := Nat.mul_le_mul_left _ h1
    omega
  exact h u hu ((loopAccepts_iff_valid clock baud u hsmall).mp hacc)

/-- C1: for a baudrate in 10..1000 and any clock, when some table entry divides the clock
exactly with a quotient in 1..1024, `CanGetSpeedConfig` returns `BLT_TRUE` and stores
`(prescaler-1) | ((tseg2-1) << 20) | ((tseg1-1) << 16)` of the first such entry in table
order: every entry before the chosen one is not a valid candidate. -/
theorem CanGetSpeedConfig_first_match (clock baud btr : Nat) (_hlo : 10 ≤ baud)
    (_hhi : baud ≤ 1000) (h : ∃ t ∈ canTiming, validCandidate clock baud t) :
    ∃ pre t post, canTiming = pre ++ t :: post ∧
      (∀ u ∈ pre, ¬ validCandidate clock baud u) ∧ validCandidate clock baud t ∧
      CanGetSpeedConfig clock baud btr = some (true, btrValue clock baud t) := by
  obtain ⟨pre, t, post, hsplit, hpre, ht⟩ :=
    exists_first_split (validCandidate clock baud) canTiming h
  refine ⟨pre, t, post, hsplit, hpre, ht, ?_⟩
  have htm : t ∈ canTiming := by rw [hsplit]; simp
  rw [CanGetSpeedConfig_of_split clock baud btr pre post t hsplit hpre ht,
    btrValue_eq_sum clock baud t htm ht.2.1 ht.2.2]

/-- Witness of C1: clock 48000 kHz, 500 kbps: the first entry (5, 2) is valid with
prescaler 12 and the stored word is 0x14000B. -/
theorem CanGetSpeedConfig_first_match_witness :
    (∃ pre t post, canTiming = pre ++ t :: post ∧
      (∀ u ∈ pre, ¬ validCandidate 48000 500 u) ∧ validCandidate 48000 500 t ∧
      CanGetSpeedConfig 48000 500 0 = some (true, btrValue 48000 500 t)) ∧
    btrValue 48000 500 ⟨5, 2⟩ = 0x14000B ∧
    CanGetSpeedConfig 48000 500 0 = some (true, 0x14000B) :=
  ⟨CanGetSpeedConfig_first_match 48000 500 0 (by decide) (by decide)
      ⟨⟨5, 2⟩, by decide, by decide⟩, by decide, by decide⟩

/-- C3: whenever some table entry is a valid candidate, the stored word `v` decodes to the
first valid entry and to its exact prescaler, and the decoded fields reproduce the clock:
`clock = baud * (segment1 + segment2 + 1) * prescaler`. The word is the sum of the three fields
at bit offsets 0, 16 and 20, each within its own bit range. -/
theorem CanGetSpeedConfig_decodes (clock baud btr : Nat) (_hb : baud < 2 ^ 16)
    (h : ∃ t ∈ canTiming, validCandidate clock baud t) :
    ∃ pre t post v, canTiming = pre ++ t :: post ∧
      (∀ u ∈ pre, ¬ validCandidate clock baud u) ∧ validCandidate clock baud t ∧
      CanGetSpeedConfig clock baud btr = some (true, v) ∧
      ((v >>> 16) &&& 0xF) + 1 = t.tseg1 ∧
      ((v >>> 20) &&& 0x7) + 1 = t.tseg2 ∧
      (v &&& 0x3FF) + 1 = clock / (baud * totalQuanta t) ∧
      clock = baud * ((((v >>> 16) &&& 0xF) + 1) + (((v >>> 20) &&& 0x7) + 1) + 1)
                * ((v &&& 0x3FF) + 1) ∧
      v = (v &&& 0x3FF) + 2 ^ 16 * ((v >>> 16) &&& 0xF) + 2 ^ 20 * ((v >>> 20) &&& 0x7) := by
  obtain ⟨pre, t, post, hsplit, hpre, ht⟩ :=
    exists_first_split (validCandidate clock baud) canTiming h
  have htm : t ∈ canTiming := by rw [hsplit]; simp
  obtain ⟨a1, a2, b1, b2⟩ := canTiming_segments t htm
  obtain ⟨hm, q1, q2⟩ := ht
  have hv := CanGetSpeedConfig_of_split clock baud btr pre post t hsplit hpre ⟨hm, q1, q2⟩
  generalize hq : clock / (baud * totalQuanta t) = q at hv q1 q2
  generalize hvv : q - 1 + 2 ^ 16 * (t.tseg1 - 1) + 2 ^ 20 * (t.tseg2 - 1) = v at hv
  have m1 : v &&& 0x3FF = v % 2 ^ 10 := Nat.and_pow_two_sub_one_eq_mod v 10
  have m2 : (v >>> 16) &&& 0xF = (v >>> 16) % 2 ^ 4 := Nat.and_pow_two_sub_one_eq_mod _ 4
  have m3 : (v >>> 20) &&& 0x7 = (v >>> 20) % 2 ^ 3 := Nat.and_pow_two_sub_one_eq_mod _ 3
  have d1 : v % 2 ^ 10 + 1 = q := by omega
  have d2 : (v >>> 16) % 2 ^ 4 + 1 = t.tseg1 := by
    rw [Nat.shiftRight_eq_div_pow]; omega
  have d3 : (v >>> 20) % 2 ^ 3 + 1 = t.tseg2 := by
    rw [Nat.shiftRight_eq_div_pow]; omega
  have hc : clock = baud * totalQuanta t * q := by
    rw [← hq]; exact (Nat.mul_div_cancel' (Nat.dvd_of_mod_eq_zero hm)).symm
  refine ⟨pre, t, post, v, hsplit, hpre, ⟨hm, by omega, by omega⟩, hv, ?_, ?_, ?_, ?_, ?_⟩
  · rw [m2]; exact d2
  · rw [m3]; exact d3
  · rw [m1, hq]; exact d1
  · rw [m1, m2, m3, d1, d2, d3]; exact hc
  · rw [m1, m2, m3]; omega

/-- Witness of C3: clock 48000 kHz, 500 kbps. -/
theorem CanGetSpeedConfig_decodes_witness :
    ∃ pre t post v, canTiming = pre ++ t :: post ∧
      (∀ u ∈ pre, ¬ validCandidate 48000 500 u) ∧ validCandidate 48000 500 t ∧
      CanGetSpeedConfig 48000 500 0 = some (true, v) ∧
      ((v >>> 16) &&& 0xF) + 1 = t.tseg1 ∧
      ((v >>> 20) &&& 0x7) + 1 = t.tseg2 ∧
      (v &&& 0x3FF) + 1 = 48000 / (500 * totalQuanta t) ∧
      48000 = 500 * ((((v >>> 16) &&& 0xF) + 1) + (((v >>> 20) &&& 0x7) + 1) + 1)
                * ((v &&& 0x3FF) + 1) ∧
      v = (v &&& 0x3FF) + 2 ^ 16 * ((v >>> 16) &&& 0xF) + 2 ^ 20 * ((v >>> 20) &&& 0x7) :=
  CanGetSpeedConfig_decodes 48000 500 0 (by decide) ⟨⟨5, 2⟩, by decide, by decide⟩

/-! ## Properties of the transmit function -/

theorem wait_not_assertFailed (sr : Nat → Nat) (fuel i : Nat) (m m' : Machine) :
    CanTransmitPacket.wait sr fuel i m ≠ Outcome.assertFailed m' := by
  induction fuel generalizing i m with
  | zero => simp [CanTransmitPacket.wait]
  | succ n ih =>
    simp only [CanTransmitPacket.wait, Machine.read, Machine.present]
    split
    · exact ih _ _
    · simp

/-- Whatever the bound, the busy-wait only reads the status register and calls the watchdog
hook: it appends no write to the log and changes no register except the status register the
hardware updates. -/
theorem wait_frame (sr : Nat → Nat) (fuel i : Nat) (m : Machine) :
    (∃ rest, (CanTransmitPacket.wait sr fuel i m).machine.log = m.log ++ rest ∧
      ∀ e ∈ rest, e.isWrite = false) ∧
    ∀ r, r ≠ Reg.CAN1SR → (CanTransmitPacket.wait sr fuel i m).machine.regs r = m.regs r := by
  induction fuel generalizing i m with
  | zero => exact ⟨⟨[], by simp [CanTransmitPacket.wait, Outcome.machine], by simp⟩,
      fun r _ => rfl⟩
  | succ n ih =>
    simp only [CanTransmitPacket.wait, Machine.read, Machine.present]
    split
    · obtain ⟨⟨rest, hlog, hrest⟩, hregs⟩ := ih (i + 1)
        (Machine.CopService
          { regs := Function.update m.regs Reg.CAN1SR (sr i),
            log := m.log ++
              [Event.read Reg.CAN1SR (Function.update m.regs Reg.CAN1SR (sr i) Reg.CAN1SR)] })
      refine ⟨⟨Event.read Reg.CAN1SR (Function.update m.regs Reg.CAN1SR (sr i) Reg.CAN1SR)
          :: Event.cop :: rest, ?_, ?_⟩, ?_⟩
      · rw [hlog]; simp [Machine.CopService]
      · intro e he
        rcases List.mem_cons.mp he with rfl | he
        · rfl
        · rcases List.mem_cons.mp he with rfl | he
          · rfl
          · exact hrest e he
      · intro r hr
        rw [hregs r hr]
        simp [Machine.CopService, Function.update_noteq hr]
    · refine ⟨⟨[Event.read Reg.CAN1SR (Function.update m.regs Reg.CAN1SR (sr i) Reg.CAN1SR)],
          by simp [Outcome.machine], ?_⟩, ?_⟩
      · intro e he
        rcases List.mem_singleton.mp he with rfl
        rfl
      · intro r hr
        simp [Outcome.machine, Function.update_noteq hr]

/-- When the completion bit is clear at polls `i .. i+k-1` and set at poll `i+k`, a bound of
more than `k` polls lets the busy-wait return, after exactly the accesses `spinEvents sr k i`
followed by the final read. -/
theorem wait_returns (sr : Nat → Nat) (k : Nat) :
    ∀ (fuel i : Nat) (m : Machine), k < fuel →
      (∀ j, j < k → sr (i + j) &&& CAN_TCS1 = 0) → sr (i + k) &&& CAN_TCS1 ≠ 0 →
      CanTransmitPacket.wait sr fuel i m = Outcome.returned ()
        { regs := Function.update m.regs Reg.CAN1SR (sr (i + k)),
          log := m.log ++ spinEvents sr k i ++ [Event.read Reg.CAN1SR (sr (i + k))] } := by
  induction k with
  | zero =>
    intro fuel i m hf _ hset
    obtain ⟨n, rfl⟩ : ∃ n, fuel = n + 1 := ⟨fuel - 1, by omega⟩
    simp only [Nat.add_zero] at hset
    simp [CanTransmitPacket.wait, Machine.read, Machine.present, hset, spinEvents]
  | succ k ih =>
    intro fuel i m hf hclr hset
    obtain ⟨n, rfl⟩ : ∃ n, fuel = n + 1 := ⟨fuel - 1, by omega⟩
    have h0 : sr i &&& CAN_TCS1 = 0 := by simpa using hclr 0 (by omega)
    have hclr2 : ∀ j, j < k → sr (i + 1 + j) &&& CAN_TCS1 = 0 := by
      intro j hj
      have := hclr (1 + j) (by omega)
      rwa [← Nat.add_assoc] at this
    have hset2 : sr (i + 1 + k) &&& CAN_TCS1 ≠ 0 := by
      have e : i + 1 + k = i + (k + 1) := by omega
      rw [e]; exact hset
    have e : i + 1 + k = i + (k + 1) := by omega
    simp only [CanTransmitPacket.wait, Machine.read, Machine.present, Function.update_same,
      h0, if_true]
    rw [ih n (i + 1) _ (by omega) hclr2 hset2, e]
    simp [Machine.CopService, spinEvents]

/-- When the completion bit never shows, the busy-wait is still waiting at every bound. -/
theorem wait_spins (sr : Nat → Nat) (hclr : ∀ j, sr j &&& CAN_TCS1 = 0) (fuel i : Nat)
    (m : Machine) : ∃ m', CanTransmitPacket.wait sr fuel i m = Outcome.spinning m' := by
  induction fuel generalizing i m with
  | zero => exact ⟨m, rfl⟩
  | succ n ih =>
    simp only [CanTransmitPacket.wait, Machine.read, Machine.present, Function.update_same,
      hclr i, if_true]
    exact ih _ _

/-- With the transmit buffer idle at entry the function performs its five register writes
and enters the busy-wait. -/
theorem CanTransmitPacket_of_idle (cfg : Config) (sr : Nat → Nat) (fuel : Nat) (m : Machine)
    (data : Fin 8 → Nat) (len : Nat) (hidle : m.regs Reg.CAN1SR &&& CAN_TBS1 ≠ 0) :
    CanTransmitPacket cfg sr fuel m data len
      = CanTransmitPacket.wait sr fuel 0
          (((((((m.read Reg.CAN1SR).2.write Reg.CAN1TFI1 (len <<< 16)).write Reg.CAN1TID1
            cfg.BOOT_COM_CAN_TX_MSG_ID).write Reg.CAN1TDA1
              ((data 3 <<< 24) + (data 2 <<< 16) + (data 1 <<< 8) + data 0)).write Reg.CAN1TDB1
              ((data 7 <<< 24) + (data 6 <<< 16) + (data 5 <<< 8) + data 4)).write Reg.CAN1CMR
              (CAN_TR ||| CAN_STB1))) := by
  simp [CanTransmitPacket, ASSERT_RT, Machine.read, hidle]

/-- With the transmit buffer busy at entry the function stops in the assertion right after
reading the status register. -/
theorem CanTransmitPacket_of_busy (cfg : Config) (sr : Nat → Nat) (fuel : Nat) (m : Machine)
    (data : Fin 8 → Nat) (len : Nat) (hbusy : m.regs Reg.CAN1SR &&& CAN_TBS1 = 0) :
    CanTransmitPacket cfg sr fuel m data len
      = Outcome.assertFailed
          { regs := m.regs, log := m.log ++ [Event.read Reg.CAN1SR (m.regs Reg.CAN1SR)] } := by
  simp [CanTransmitPacket, ASSERT_RT, Machine.read, hbusy]

theorem pack_word (a b c d : Nat) :
    ((d <<< 24) + (c <<< 16) + (b <<< 8) + a) % 2 ^ 32
      = (a + b * 2 ^ 8 + c * 2 ^ 16 + d * 2 ^ 24) % 2 ^ 32 := by
  simp only [Nat.shiftLeft_eq]
  congr 1
  omega

theorem spinEvents_count_cop (sr : Nat → Nat) (k i : Nat) :
    (spinEvents sr k i).count Event.cop = k := by
  induction k generalizing i with
  | zero => rfl
  | succ k ih => simp [spinEvents, ih]

/-- With the transmit buffer idle at entry, the five registers written by the function hold
the written values at the end, whatever the busy-wait does. -/
theorem CanTransmitPacket_final_regs (cfg : Config) (sr : Nat → Nat) (fuel : Nat)
    (m : Machine) (data : Fin 8 → Nat) (len : Nat)
    (hidle : m.regs Reg.CAN1SR &&& CAN_TBS1 ≠ 0) :
    (CanTransmitPacket cfg sr fuel m data len).machine.regs Reg.CAN1TFI1
      = (len <<< 16) % 2 ^ 32 ∧
    (CanTransmitPacket cfg sr fuel m data len).machine.regs Reg.CAN1TID1
      = cfg.BOOT_COM_CAN_TX_MSG_ID % 2 ^ 32 ∧
    (CanTransmitPacket cfg sr fuel m data len).machine.regs Reg.CAN1TDA1
      = (data 0 + data 1 * 2 ^ 8 + data 2 * 2 ^ 16 + data 3 * 2 ^ 24) % 2 ^ 32 ∧
    (CanTransmitPacket cfg sr fuel m data len).machine.regs Reg.CAN1TDB1
      = (data 4 + data 5 * 2 ^ 8 + data 6 * 2 ^ 16 + data 7 * 2 ^ 24) % 2 ^ 32 ∧
    (CanTransmitPacket cfg sr fuel m data len).machine.regs Reg.CAN1CMR = 0x21 := by
  rw [CanTransmitPacket_of_idle cfg sr fuel m data len hidle]
  have hregs := (wait_frame sr fuel 0
    (((((((m.read Reg.CAN1SR).2.write Reg.CAN1TFI1 (len <<< 16)).write Reg.CAN1TID1
      cfg.BOOT_COM_CAN_TX_MSG_ID).write Reg.CAN1TDA1
        ((data 3 <<< 24) + (data 2 <<< 16) + (data 1 <<< 8) + data 0)).write Reg.CAN1TDB1
        ((data 7 <<< 24) + (data 6 <<< 16) + (data 5 <<< 8) + data 4)).write Reg.CAN1CMR
        (CAN_TR ||| CAN_STB1)))).2
  refine ⟨?_, ?_, ?_, ?_, ?_⟩
  · rw [hregs _ (by decide)]
    simp [Machine.write, Machine.read, Reg.width, Function.update]
  · rw [hregs _ (by decide)]
    simp [Machine.write, Machine.read, Reg.width, Function.update]
  · rw [hregs _ (by decide)]
    simp [Machine.write, Machine.read, Reg.width, Function.update]
    simp only [Nat.shiftLeft_eq]; omega
  · rw [hregs _ (by decide)]
    simp [Machine.write, Machine.read, Reg.width, Function.update]
    simp only [Nat.shiftLeft_eq]; omega
  · rw [hregs _ (by decide)]
    simp [Machine.write, Machine.read, Reg.width, Function.update]
    decide

/-- C5: with the transmit buffer idle, for every payload and every `len ≤ 8` the function
writes, in this order, frame info := `len << 16`, identifier := `BOOT_COM_CAN_TX_MSG_ID`,
first data register := bytes 0..3 little-endian, second data register := bytes 4..7
little-endian (each modulo 2^32) and command := `CAN_TR | CAN_STB1` = 0x21; nothing else is
written afterwards, and the registers hold these values at the end. -/
theorem CanTransmitPacket_register_writes (cfg : Config) (sr : Nat → Nat) (fuel : Nat)
    (m : Machine) (data : Fin 8 → Nat) (len : Nat)
    (hidle : m.regs Reg.CAN1SR &&& CAN_TBS1 ≠ 0) (hlen : len ≤ 8)
    (hid : cfg.BOOT_COM_CAN_TX_MSG_ID < 2 ^ 32) :
    (∃ rest, (CanTransmitPacket cfg sr fuel m data len).machine.log
        = m.log ++
          [ Event.read Reg.CAN1SR (m.regs Reg.CAN1SR),
            Event.write Reg.CAN1TFI1 (len <<< 16),
            Event.write Reg.CAN1TID1 cfg.BOOT_COM_CAN_TX_MSG_ID,
            Event.write Reg.CAN1TDA1
              ((data 0 + data 1 * 2 ^ 8 + data 2 * 2 ^ 16 + data 3 * 2 ^ 24) % 2 ^ 32),
            Event.write Reg.CAN1TDB1
              ((data 4 + data 5 * 2 ^ 8 + data 6 * 2 ^ 16 + data 7 * 2 ^ 24) % 2 ^ 32),
            Event.write Reg.CAN1CMR 0x21 ] ++ rest ∧
        ∀ e ∈ rest, e.isWrite = false) ∧
    (CanTransmitPacket cfg sr fuel m data len).machine.regs Reg.CAN1TFI1 = len <<< 16 ∧
    (CanTransmitPacket cfg sr fuel m data len).machine.regs Reg.CAN1TID1
      = cfg.BOOT_COM_CAN_TX_MSG_ID ∧
    (CanTransmitPacket cfg sr fuel m data len).machine.regs Reg.CAN1TDA1
      = (data 0 + data 1 * 2 ^ 8 + data 2 * 2 ^ 16 + data 3 * 2 ^ 24) % 2 ^ 32 ∧
    (CanTransmitPacket cfg sr fuel m data len).machine.regs Reg.CAN1TDB1
      = (data 4 + data 5 * 2 ^ 8 + data 6 * 2 ^ 16 + data 7 * 2 ^ 24) % 2 ^ 32 ∧
    (CanTransmitPacket cfg sr fuel m data len).machine.regs Reg.CAN1CMR = 0x21 := by
  have e1 : (len <<< 16) % 2 ^ 32 = len <<< 16 := by
    rw [Nat.shiftLeft_eq]; omega
  have e2 : cfg.BOOT_COM_CAN_TX_MSG_ID % 2 ^ 32 = cfg.BOOT_COM_CAN_TX_MSG_ID :=
    Nat.mod_eq_of_lt hid
  have e3 : (CAN_TR ||| CAN_STB1) % 2 ^ 32 = 0x21 := by decide
  obtain ⟨r1, r2, r3, r4, r5⟩ := CanTransmitPacket_final_regs cfg sr fuel m data len hidle
  refine ⟨?_, by rw [r1, e1], by rw [r2, e2], r3, r4, r5⟩
  rw [CanTransmitPacket_of_idle cfg sr fuel m data len hidle]
  obtain ⟨rest, hlog, hrest⟩ := (wait_frame sr fuel 0
    (((((((m.read Reg.CAN1SR).2.write Reg.CAN1TFI1 (len <<< 16)).write Reg.CAN1TID1
      cfg.BOOT_COM_CAN_TX_MSG_ID).write Reg.CAN1TDA1
        ((data 3 <<< 24) + (data 2 <<< 16) + (data 1 <<< 8) + data 0)).write Reg.CAN1TDB1
        ((data 7 <<< 24) + (data 6 <<< 16) + (data 5 <<< 8) + data 4)).write Reg.CAN1CMR
        (CAN_TR ||| CAN_STB1)))).1
  refine ⟨rest, ?_, hrest⟩
  rw [hlog]
  simp only [Machine.write, Machine.read, Reg.width, pack_word, e1, e2, e3,
    List.append_assoc, List.singleton_append, List.cons_append, List.nil_append]

/-- Witness of C5: payload 0x01..0x08 with length 8 on an idle transmit buffer. -/
theorem CanTransmitPacket_register_writes_witness :
    (∃ rest, (CanTransmitPacket demoConfig (fun _ => 8) 1 (demoMachine 4 0 0 0) demoData
          8).machine.log
        = (demoMachine 4 0 0 0).log ++
          [ Event.read Reg.CAN1SR ((demoMachine 4 0 0 0).regs Reg.CAN1SR),
            Event.write Reg.CAN1TFI1 (8 <<< 16),
            Event.write Reg.CAN1TID1 demoConfig.BOOT_COM_CAN_TX_MSG_ID,
            Event.write Reg.CAN1TDA1
              ((demoData 0 + demoData 1 * 2 ^ 8 + demoData 2 * 2 ^ 16 + demoData 3 * 2 ^ 24)
                % 2 ^ 32),
            Event.write Reg.CAN1TDB1
              ((demoData 4 + demoData 5 * 2 ^ 8 + demoData 6 * 2 ^ 16 + demoData 7 * 2 ^ 24)
                % 2 ^ 32),
            Event.write Reg.CAN1CMR 0x21 ] ++ rest ∧
        ∀ e ∈ rest, e.isWrite = false) ∧
    (CanTransmitPacket demoConfig (fun _ => 8) 1 (demoMachine 4 0 0 0) demoData
      8).machine.regs Reg.CAN1TDA1 = 0x04030201 ∧
    (CanTransmitPacket demoConfig (fun _ => 8) 1 (demoMachine 4 0 0 0) demoData
      8).machine.regs Reg.CAN1TDB1 = 0x08070605 :=
  ⟨(CanTransmitPacket_register_writes demoConfig (fun _ => 8) 1 (demoMachine 4 0 0 0)
      demoData 8 (by decide) (by decide) (by decide)).1, by decide, by decide⟩

/-- C6: the function ends in the fatal assertion exactly when the transmit-buffer-idle bit
`CAN_TBS1` of the status register is clear at entry; it has then only read the status
register: no register is written (all registers keep their values) and the watchdog hook is
not called. -/
theorem CanTransmitPacket_assert_iff_busy (cfg : Config) (sr : Nat → Nat) (fuel : Nat)
    (m : Machine) (data : Fin 8 → Nat) (len : Nat) :
    ((∃ m', CanTransmitPacket cfg sr fuel m data len = Outcome.assertFailed m')
      ↔ m.regs Reg.CAN1SR &&& CAN_TBS1 = 0) ∧
    (m.regs Reg.CAN1SR &&& CAN_TBS1 = 0 →
      CanTransmitPacket cfg sr fuel m data len
        = Outcome.assertFailed
            { regs := m.regs,
              log := m.log ++ [Event.read Reg.CAN1SR (m.regs Reg.CAN1SR)] }) := by
  refine ⟨⟨?_, ?_⟩, CanTransmitPacket_of_busy cfg sr fuel m data len⟩
  · rintro ⟨m', hm'⟩
    by_contra hidle
    rw [CanTransmitPacket_of_idle cfg sr fuel m data len hidle] at hm'
    exact wait_not_assertFailed _ _ _ _ _ hm'
  · intro hbusy
    exact ⟨_, CanTransmitPacket_of_busy cfg sr fuel m data len hbusy⟩

/-- Witness of C6: status register 0x8 (idle bit clear) at entry. -/
theorem CanTransmitPacket_assert_iff_busy_witness :
    CanTransmitPacket demoConfig (fun _ => 8) 5 (demoMachine 8 0 0 0) demoData 8
      = Outcome.assertFailed
          { regs := (demoMachine 8 0 0 0).regs,
            log := (demoMachine 8 0 0 0).log ++
              [Event.read Reg.CAN1SR ((demoMachine 8 0 0 0).regs Reg.CAN1SR)] } :=
  (CanTransmitPacket_assert_iff_busy demoConfig (fun _ => 8) 5 (demoMachine 8 0 0 0)
    demoData 8).2 (by decide)

/-- C7: when the transmit buffer is idle at entry and the completion bit `CAN_TCS1` is first
set at the (k+1)-th poll of the busy-wait, the function returns (for every bound above `k`),
and after the command write its accesses are exactly: k times (read status, call
`CopService`), then the final read of the status register. The watchdog hook is thus called
exactly `k` times, once between any two consecutive polls. -/
theorem CanTransmitPacket_busy_wait (cfg : Config) (sr : Nat → Nat) (fuel k : Nat)
    (m : Machine) (data : Fin 8 → Nat) (len : Nat)
    (hidle : m.regs Reg.CAN1SR &&& CAN_TBS1 ≠ 0)
    (hclr : ∀ j, j < k → sr j &&& CAN_TCS1 = 0) (hset : sr k &&& CAN_TCS1 ≠ 0)
    (hfuel : k < fuel) :
    ∃ m', CanTransmitPacket cfg sr fuel m data len = Outcome.returned () m' ∧
      m'.log = m.log ++
          [ Event.read Reg.CAN1SR (m.regs Reg.CAN1SR),
            Event.write Reg.CAN1TFI1 ((len <<< 16) % 2 ^ 32),
            Event.write Reg.CAN1TID1 (cfg.BOOT_COM_CAN_TX_MSG_ID % 2 ^ 32),
            Event.write Reg.CAN1TDA1
              (((data 3 <<< 24) + (data 2 <<< 16) + (data 1 <<< 8) + data 0) % 2 ^ 32),
            Event.write Reg.CAN1TDB1
              (((data 7 <<< 24) + (data 6 <<< 16) + (data 5 <<< 8) + data 4) % 2 ^ 32),
            Event.write Reg.CAN1CMR 0x21 ]
          ++ spinEvents sr k 0 ++ [Event.read Reg.CAN1SR (sr k)] ∧
      m'.log.count Event.cop = m.log.count Event.cop + k := by
  have hclr2 : ∀ j, j < k → sr (0 + j) &&& CAN_TCS1 = 0 := by
    intro j hj; rw [Nat.zero_add]; exact hclr j hj
  have hset2 : sr (0 + k) &&& CAN_TCS1 ≠ 0 := by rw [Nat.zero_add]; exact hset
  have e3 : (CAN_TR ||| CAN_STB1) % 2 ^ 32 = 0x21 := by decide
  rw [CanTransmitPacket_of_idle cfg sr fuel m data len hidle,
    wait_returns sr k fuel 0 _ hfuel hclr2 hset2]
  refine ⟨_, rfl, ?_, ?_⟩
  · simp only [Machine.write, Machine.read, Reg.width, e3, Nat.zero_add,
      List.append_assoc, List.singleton_append, List.cons_append, List.nil_append]
  · simp [Machine.write, Machine.read, spinEvents_count_cop]

/-- Witness of C7: the completion bit is clear at the first three polls and set at the
fourth. -/
theorem CanTransmitPacket_busy_wait_witness :
    ∃ m', CanTransmitPacket demoConfig (fun i => if i < 3 then 0 else 8) 4
        (demoMachine 4 0 0 0) demoData 8 = Outcome.returned () m' ∧
      m'.log = (demoMachine 4 0 0 0).log ++
          [ Event.read Reg.CAN1SR ((demoMachine 4 0 0 0).regs Reg.CAN1SR),
            Event.write Reg.CAN1TFI1 ((8 <<< 16) % 2 ^ 32),
            Event.write Reg.CAN1TID1 (demoConfig.BOOT_COM_CAN_TX_MSG_ID % 2 ^ 32),
            Event.write Reg.CAN1TDA1
              (((demoData 3 <<< 24) + (demoData 2 <<< 16) + (demoData 1 <<< 8) + demoData 0)
                % 2 ^ 32),
            Event.write Reg.CAN1TDB1
              (((demoData 7 <<< 24) + (demoData 6 <<< 16) + (demoData 5 <<< 8) + demoData 4)
                % 2 ^ 32),
            Event.write Reg.CAN1CMR 0x21 ]
          ++ spinEvents (fun i => if i < 3 then 0 else 8) 3 0 ++ [Event.read Reg.CAN1SR 8] ∧
      m'.log.count Event.cop = (demoMachine 4 0 0 0).log.count Event.cop + 3 :=
  CanTransmitPacket_busy_wait demoConfig (fun i => if i < 3 then 0 else 8) 4 3
    (demoMachine 4 0 0 0) demoData 8 (by decide) (by decide) (by decide) (by decide)

/-! ## Properties of the receive function -/

theorem CanReceivePacket_of_empty (cfg : Config) (m : Machine) (data : Fin 8 → Nat)
    (hempty : m.regs Reg.CAN1SR &&& CAN_RBS = 0) :
    CanReceivePacket cfg m data
      = (false, data,
          { regs := m.regs, log := m.log ++ [Event.read Reg.CAN1SR (m.regs Reg.CAN1SR)] }) := by
  simp [CanReceivePacket, Machine.read, hempty]

theorem CanReceivePacket_of_mismatch (cfg : Config) (m : Machine) (data : Fin 8 → Nat)
    (hpend : m.regs Reg.CAN1SR &&& CAN_RBS ≠ 0)
    (hid : m.regs Reg.CAN1RID ≠ cfg.BOOT_COM_CAN_RX_MSG_ID) :
    CanReceivePacket cfg m data
      = (false, data,
          { regs := m.regs,
            log := m.log ++ [Event.read Reg.CAN1SR (m.regs Reg.CAN1SR),
              Event.read Reg.CAN1RID (m.regs Reg.CAN1RID)] }) := by
  simp [CanReceivePacket, Machine.read, hpend, hid]

theorem CanReceivePacket_of_match (cfg : Config) (m : Machine) (data : Fin 8 → Nat)
    (hpend : m.regs Reg.CAN1SR &&& CAN_RBS ≠ 0)
    (hid : m.regs Reg.CAN1RID = cfg.BOOT_COM_CAN_RX_MSG_ID) :
    CanReceivePacket cfg m data
      = (true,
          ![ m.regs Reg.CAN1RDA % 2 ^ 8, m.regs Reg.CAN1RDA / 2 ^ 8 % 2 ^ 8,
             m.regs Reg.CAN1RDA / 2 ^ 16 % 2 ^ 8, m.regs Reg.CAN1RDA / 2 ^ 24 % 2 ^ 8,
             m.regs Reg.CAN1RDB % 2 ^ 8, m.regs Reg.CAN1RDB / 2 ^ 8 % 2 ^ 8,
             m.regs Reg.CAN1RDB / 2 ^ 16 % 2 ^ 8, m.regs Reg.CAN1RDB / 2 ^ 24 % 2 ^ 8 ],
          { regs := Function.update m.regs Reg.CAN1CMR CAN_RRB,
            log := m.log ++
              [ Event.read Reg.CAN1SR (m.regs Reg.CAN1SR),
                Event.read Reg.CAN1RID (m.regs Reg.CAN1RID),
                Event.read Reg.CAN1RDA (m.regs Reg.CAN1RDA),
                Event.read Reg.CAN1RDA (m.regs Reg.CAN1RDA),
                Event.read Reg.CAN1RDA (m.regs Reg.CAN1RDA),
                Event.read Reg.CAN1RDA (m.regs Reg.CAN1RDA),
                Event.read Reg.CAN1RDB (m.regs Reg.CAN1RDB),
                Event.read Reg.CAN1RDB (m.regs Reg.CAN1RDB),
                Event.read Reg.CAN1RDB (m.regs Reg.CAN1RDB),
                Event.read Reg.CAN1RDB (m.regs Reg.CAN1RDB),
                Event.write Reg.CAN1CMR CAN_RRB ] }) := by
  have hdata : (Function.update (Function.update (Function.update (Function.update
      (Function.update (Function.update (Function.update (Function.update data
        0 (m.regs Reg.CAN1RDA % 2 ^ 8))
        1 ((m.regs Reg.CAN1RDA >>> 8) % 2 ^ 8))
        2 ((m.regs Reg.CAN1RDA >>> 16) % 2 ^ 8))
        3 ((m.regs Reg.CAN1RDA >>> 24) % 2 ^ 8))
        4 (m.regs Reg.CAN1RDB % 2 ^ 8))
        5 ((m.regs Reg.CAN1RDB >>> 8) % 2 ^ 8))
        6 ((m.regs Reg.CAN1RDB >>> 16) % 2 ^ 8))
        7 ((m.regs Reg.CAN1RDB >>> 24) % 2 ^ 8))
      = ![ m.regs Reg.CAN1RDA % 2 ^ 8, m.regs Reg.CAN1RDA / 2 ^ 8 % 2 ^ 8,
           m.regs Reg.CAN1RDA / 2 ^ 16 % 2 ^ 8, m.regs Reg.CAN1RDA / 2 ^ 24 % 2 ^ 8,
           m.regs Reg.CAN1RDB % 2 ^ 8, m.regs Reg.CAN1RDB / 2 ^ 8 % 2 ^ 8,
           m.regs Reg.CAN1RDB / 2 ^ 16 % 2 ^ 8, m.regs Reg.CAN1RDB / 2 ^ 24 % 2 ^ 8 ] := by
    simp only [Nat.shiftRight_eq_div_pow]
    funext i
    fin_cases i <;> rfl
  have hrrb : CAN_RRB % 2 ^ 32 = CAN_RRB := by decide
  simp only [CanReceivePacket, Machine.read, Machine.write, Reg.width, hpend, hid, hrrb,
    if_false, ne_eq, not_true_eq_false, List.append_assoc, List.singleton_append,
    List.cons_append, List.nil_append, hdata]

theorem receiveRepeatedly_empty (cfg : Config) (n : Nat) :
    ∀ (m : Machine) (data : Fin 8 → Nat), m.regs Reg.CAN1SR &&& CAN_RBS = 0 →
      receiveRepeatedly cfg n m data
        = (List.replicate n false, data,
            { regs := m.regs,
              log := m.log ++ List.replicate n (Event.read Reg.CAN1SR (m.regs Reg.CAN1SR)) }) := by
  induction n with
  | zero => intro m data _; simp [receiveRepeatedly]
  | succ n ih =>
    intro m data hempty
    simp only [receiveRepeatedly, CanReceivePacket_of_empty cfg m data hempty]
    rw [ih { regs := m.regs, log := m.log ++ [Event.read Reg.CAN1SR (m.regs Reg.CAN1SR)] }
      data hempty]
    simp [List.replicate_succ]

/-- C4: round trip. When the words that `CanTransmitPacket` leaves in the transmit data
registers for an 8-byte payload `d` are the receive data registers of a pending frame with
the receive identifier, `CanReceivePacket` returns true and the buffer holds exactly `d`. -/
theorem transmit_receive_round_trip (cfg : Config) (sr : Nat → Nat) (fuel : Nat)
    (m : Machine) (d : Fin 8 → Nat) (len : Nat) (rx : Machine) (buf : Fin 8 → Nat)
    (hbytes : ∀ i, d i < 2 ^ 8)
    (hidle : m.regs Reg.CAN1SR &&& CAN_TBS1 ≠ 0)
    (hpend : rx.regs Reg.CAN1SR &&& CAN_RBS ≠ 0)
    (hid : rx.regs Reg.CAN1RID = cfg.BOOT_COM_CAN_RX_MSG_ID)
    (hA : rx.regs Reg.CAN1RDA
      = (CanTransmitPacket cfg sr fuel m d len).machine.regs Reg.CAN1TDA1)
    (hB : rx.regs Reg.CAN1RDB
      = (CanTransmitPacket cfg sr fuel m d len).machine.regs Reg.CAN1TDB1) :
    (CanReceivePacket cfg rx buf).1 = true ∧ (CanReceivePacket cfg rx buf).2.1 = d := by
  obtain ⟨_, _, r3, r4, _⟩ := CanTransmitPacket_final_regs cfg sr fuel m d len hidle
  rw [r3] at hA
  rw [r4] at hB
  rw [CanReceivePacket_of_match cfg rx buf hpend hid]
  refine ⟨rfl, ?_⟩
  have h0 := hbytes 0
  have h1 := hbytes 1
  have h2 := hbytes 2
  have h3 := hbytes 3
  have h4 := hbytes 4
  have h5 := hbytes 5
  have h6 := hbytes 6
  have h7 := hbytes 7
  have a0 : rx.regs Reg.CAN1RDA % 2 ^ 8 = d 0 := by omega
  have a1 : rx.regs Reg.CAN1RDA / 2 ^ 8 % 2 ^ 8 = d 1 := by omega
  have a2 : rx.regs Reg.CAN1RDA / 2 ^ 16 % 2 ^ 8 = d 2 := by omega
  have a3 : rx.regs Reg.CAN1RDA / 2 ^ 24 % 2 ^ 8 = d 3 := by omega
  have b0 : rx.regs Reg.CAN1RDB % 2 ^ 8 = d 4 := by omega
  have b1 : rx.regs Reg.CAN1RDB / 2 ^ 8 % 2 ^ 8 = d 5 := by omega
  have b2 : rx.regs Reg.CAN1RDB / 2 ^ 16 % 2 ^ 8 = d 6 := by omega
  have b3 : rx.regs Reg.CAN1RDB / 2 ^ 24 % 2 ^ 8 = d 7 := by omega
  show ![_, _, _, _, _, _, _, _] = d
  rw [a0, a1, a2, a3, b0, b1, b2, b3]
  funext i
  fin_cases i <;> rfl

/-- Witness of C4: the payload 0x01..0x08 is transmitted as 0x04030201, 0x08070605 and
received back unchanged. -/
theorem transmit_receive_round_trip_witness :
    (CanTransmitPacket demoConfig (fun _ => 8) 1 (demoMachine 4 0 0 0) demoData
      8).machine.regs Reg.CAN1TDA1 = 0x04030201 ∧
    (CanTransmitPacket demoConfig (fun _ => 8) 1 (demoMachine 4 0 0 0) demoData
      8).machine.regs Reg.CAN1TDB1 = 0x08070605 ∧
    (CanReceivePacket demoConfig (demoMachine 1 0x667 0x04030201 0x08070605)
      (fun _ => 0)).1 = true ∧
    (CanReceivePacket demoConfig (demoMachine 1 0x667 0x04030201 0x08070605)
      (fun _ => 0)).2.1 = demoData :=
  ⟨by decide, by decide,
    transmit_receive_round_trip demoConfig (fun _ => 8) 1 (demoMachine 4 0 0 0) demoData 8
      (demoMachine 1 0x667 0x04030201 0x08070605) (fun _ => 0)
      (by decide) (by decide) (by decide) (by decide) (by decide) (by decide)⟩

/-- C8: while the receive-buffer-status bit `CAN_RBS` is clear, `CanReceivePacket` returns
false, leaves the buffer and every register unchanged and only reads the status register;
hence `n` calls in a row return false `n` times and leave buffer and registers as they were,
for every `n`. -/
theorem CanReceivePacket_empty_poll (cfg : Config) (m : Machine) (data : Fin 8 → Nat)
    (hempty : m.regs Reg.CAN1SR &&& CAN_RBS = 0) :
    CanReceivePacket cfg m data
      = (false, data,
          { regs := m.regs,
            log := m.log ++ [Event.read Reg.CAN1SR (m.regs Reg.CAN1SR)] }) ∧
    ∀ n, receiveRepeatedly cfg n m data
      = (List.replicate n false, data,
          { regs := m.regs,
            log := m.log ++ List.replicate n (Event.read Reg.CAN1SR (m.regs Reg.CAN1SR)) }) :=
  ⟨CanReceivePacket_of_empty cfg m data hempty,
    fun n => receiveRepeatedly_empty cfg n m data hempty⟩

/-- Witness of C8: status register 0x4 (no frame pending), buffer 0x01..0x08, one call and
three calls in a row. -/
theorem CanReceivePacket_empty_poll_witness :
    CanReceivePacket demoConfig (demoMachine 4 0x667 0x04030201 0x08070605) demoData
      = (false, demoData,
          { regs := (demoMachine 4 0x667 0x04030201 0x08070605).regs,
            log := (demoMachine 4 0x667 0x04030201 0x08070605).log ++
              [Event.read Reg.CAN1SR
                ((demoMachine 4 0x667 0x04030201 0x08070605).regs Reg.CAN1SR)] }) ∧
    receiveRepeatedly demoConfig 3 (demoMachine 4 0x667 0x04030201 0x08070605) demoData
      = (List.replicate 3 false, demoData,
          { regs := (demoMachine 4 0x667 0x04030201 0x08070605).regs,
            log := (demoMachine 4 0x667 0x04030201 0x08070605).log ++
              List.replicate 3 (Event.read Reg.CAN1SR
                ((demoMachine 4 0x667 0x04030201 0x08070605).regs Reg.CAN1SR)) }) :=
  ⟨(CanReceivePacket_empty_poll demoConfig (demoMachine 4 0x667 0x04030201 0x08070605)
      demoData (by decide)).1,
    (CanReceivePacket_empty_poll demoConfig (demoMachine 4 0x667 0x04030201 0x08070605)
      demoData (by decide)).2 3⟩

/-- C9: `CanReceivePacket` returns true exactly when a frame is pending (`CAN_RBS` set) and
the received identifier equals `BOOT_COM_CAN_RX_MSG_ID`. In that case the buffer receives the
four bytes of the first data register then the four bytes of the second, low byte first, and
the only write is the release command `CAN_RRB` = 0x04 to the command register; in every
other case the buffer and the registers are unchanged and nothing is written. -/
theorem CanReceivePacket_true_iff (cfg : Config) (m : Machine) (data : Fin 8 → Nat) :
    ((CanReceivePacket cfg m data).1 = true ↔
      (m.regs Reg.CAN1SR &&& CAN_RBS ≠ 0 ∧
        m.regs Reg.CAN1RID = cfg.BOOT_COM_CAN_RX_MSG_ID)) ∧
    ((m.regs Reg.CAN1SR &&& CAN_RBS ≠ 0 ∧
        m.regs Reg.CAN1RID = cfg.BOOT_COM_CAN_RX_MSG_ID) →
      (CanReceivePacket cfg m data).2.1
        = ![ m.regs Reg.CAN1RDA % 2 ^ 8, m.regs Reg.CAN1RDA / 2 ^ 8 % 2 ^ 8,
             m.regs Reg.CAN1RDA / 2 ^ 16 % 2 ^ 8, m.regs Reg.CAN1RDA / 2 ^ 24 % 2 ^ 8,
             m.regs Reg.CAN1RDB % 2 ^ 8, m.regs Reg.CAN1RDB / 2 ^ 8 % 2 ^ 8,
             m.regs Reg.CAN1RDB / 2 ^ 16 % 2 ^ 8, m.regs Reg.CAN1RDB / 2 ^ 24 % 2 ^ 8 ] ∧
      (CanReceivePacket cfg m data).2.2.regs = Function.update m.regs Reg.CAN1CMR 0x04 ∧
      ∃ reads, (CanReceivePacket cfg m data).2.2.log
          = m.log ++ reads ++ [Event.write Reg.CAN1CMR 0x04] ∧
        ∀ e ∈ reads, e.isWrite = false) ∧
    (¬ (m.regs Reg.CAN1SR &&& CAN_RBS ≠ 0 ∧
        m.regs Reg.CAN1RID = cfg.BOOT_COM_CAN_RX_MSG_ID) →
      (CanReceivePacket cfg m data).2.1 = data ∧
      (CanReceivePacket cfg m data).2.2.regs = m.regs ∧
      ∃ reads, (CanReceivePacket cfg m data).2.2.log = m.log ++ reads ∧
        ∀ e ∈ reads, e.isWrite = false) := by
  by_cases hpend : m.regs Reg.CAN1SR &&& CAN_RBS = 0
  · rw [CanReceivePacket_of_empty cfg m data hpend]
    refine ⟨⟨fun h => by simp at h, fun h => absurd hpend h.1⟩, fun h => absurd hpend h.1,
      fun _ => ⟨rfl, rfl, [Event.read Reg.CAN1SR (m.regs Reg.CAN1SR)], rfl, ?_⟩⟩
    intro e he
    rcases List.mem_singleton.mp he with rfl
    rfl
  · by_cases hid : m.regs Reg.CAN1RID = cfg.BOOT_COM_CAN_RX_MSG_ID
    · rw [CanReceivePacket_of_match cfg m data hpend hid]
      refine ⟨⟨fun _ => ⟨hpend, hid⟩, fun _ => rfl⟩,
        fun _ => ⟨rfl, rfl,
          [ Event.read Reg.CAN1SR (m.regs Reg.CAN1SR),
            Event.read Reg.CAN1RID (m.regs Reg.CAN1RID),
            Event.read Reg.CAN1RDA (m.regs Reg.CAN1RDA),
            Event.read Reg.CAN1RDA (m.regs Reg.CAN1RDA),
            Event.read Reg.CAN1RDA (m.regs Reg.CAN1RDA),
            Event.read Reg.CAN1RDA (m.regs Reg.CAN1RDA),
            Event.read Reg.CAN1RDB (m.regs Reg.CAN1RDB),
            Event.read Reg.CAN1RDB (m.regs Reg.CAN1RDB),
            Event.read Reg.CAN1RDB (m.regs Reg.CAN1RDB),
            Event.read Reg.CAN1RDB (m.regs Reg.CAN1RDB) ], ?_, ?_⟩,
        fun h => absurd ⟨hpend, hid⟩ h⟩
      · simp [CAN_RRB]
      · intro e he
        simp only [List.mem_cons, List.mem_singleton, List.not_mem_nil, or_false] at he
        rcases he with rfl | rfl | rfl | rfl | rfl | rfl | rfl | rfl | rfl | rfl <;> rfl
    · rw [CanReceivePacket_of_mismatch cfg m data hpend hid]
      refine ⟨⟨fun h => by simp at h, fun h => absurd h.2 hid⟩, fun h => absurd h.2 hid,
        fun _ => ⟨rfl, rfl, [Event.read Reg.CAN1SR (m.regs Reg.CAN1SR),
          Event.read Reg.CAN1RID (m.regs Reg.CAN1RID)], rfl, ?_⟩⟩
      intro e he
      simp only [List.mem_cons, List.mem_singleton, List.not_mem_nil, or_false] at he
      rcases he with rfl | rfl <;> rfl

/-- Witness of C9: a pending frame with identifier 0x667 and data registers 0x04030201,
0x08070605. -/
theorem CanReceivePacket_true_iff_witness :
    (CanReceivePacket demoConfig (demoMachine 1 0x667 0x04030201 0x08070605)
      (fun _ => 0)).1 = true ∧
    (CanReceivePacket demoConfig (demoMachine 1 0x667 0x04030201 0x08070605)
      (fun _ => 0)).2.1
        = ![ 0x04030201 % 2 ^ 8, 0x04030201 / 2 ^ 8 % 2 ^ 8,
             0x04030201 / 2 ^ 16 % 2 ^ 8, 0x04030201 / 2 ^ 24 % 2 ^ 8,
             0x08070605 % 2 ^ 8, 0x08070605 / 2 ^ 8 % 2 ^ 8,
             0x08070605 / 2 ^ 16 % 2 ^ 8, 0x08070605 / 2 ^ 24 % 2 ^ 8 ] :=
  ⟨(CanReceivePacket_true_iff demoConfig (demoMachine 1 0x667 0x04030201 0x08070605)
      (fun _ => 0)).1.mpr ⟨by decide, by decide⟩,
    ((CanReceivePacket_true_iff demoConfig (demoMachine 1 0x667 0x04030201 0x08070605)
      (fun _ => 0)).2.1 ⟨by decide, by decide⟩).1⟩

/-- C10: when a frame is pending but its identifier differs from `BOOT_COM_CAN_RX_MSG_ID`,
`CanReceivePacket` returns false, leaves the buffer unchanged and performs two reads (status,
identifier) and no write: the command register is not written, the receive buffer is not
released and all registers, the status register included, are as before the call. -/
theorem CanReceivePacket_identifier_mismatch (cfg : Config) (m : Machine)
    (data : Fin 8 → Nat) (hpend : m.regs Reg.CAN1SR &&& CAN_RBS ≠ 0)
    (hid : m.regs Reg.CAN1RID ≠ cfg.BOOT_COM_CAN_RX_MSG_ID) :
    CanReceivePacket cfg m data
      = (false, data,
          { regs := m.regs,
            log := m.log ++ [Event.read Reg.CAN1SR (m.regs Reg.CAN1SR),
              Event.read Reg.CAN1RID (m.regs Reg.CAN1RID)] }) ∧
    (CanReceivePacket cfg m data).2.2.regs Reg.CAN1SR &&& CAN_RBS ≠ 0 ∧
    ∀ v, Event.write Reg.CAN1CMR v ∉ (CanReceivePacket cfg m data).2.2.log.drop m.log.length := by
  rw [CanReceivePacket_of_mismatch cfg m data hpend hid]
  refine ⟨rfl, hpend, ?_⟩
  intro v
  simp

/-- Witness of C10: a pending frame with identifier 0x123 while 0x667 is expected. -/
theorem CanReceivePacket_identifier_mismatch_witness :
    CanReceivePacket demoConfig (demoMachine 1 0x123 0x04030201 0x08070605) demoData
      = (false, demoData,
          { regs := (demoMachine 1 0x123 0x04030201 0x08070605).regs,
            log := (demoMachine 1 0x123 0x04030201 0x08070605).log ++
              [Event.read Reg.CAN1SR 1, Event.read Reg.CAN1RID 0x123] }) :=
  (CanReceivePacket_identifier_mismatch demoConfig
    (demoMachine 1 0x123 0x04030201 0x08070605) demoData (by decide) (by decide)).1

/-! ## Properties of the table -/

/-- C11: every entry of `canTiming` has total quanta `1 + tseg1 + tseg2` between 8 and 25 and
a sample point `(1 + tseg1) / (1 + tseg1 + tseg2)`, as an exact fraction, between 68/100 and
78/100. -/
theorem canTiming_quanta_and_sample_point :
    ∀ t ∈ canTiming, (8 ≤ 1 + t.tseg1 + t.tseg2 ∧ 1 + t.tseg1 + t.tseg2 ≤ 25) ∧
      ((68 : ℚ) / 100 ≤ samplePoint t ∧ samplePoint t ≤ (78 : ℚ) / 100) := by
  intro t ht
  simp only [canTiming, List.mem_cons, List.mem_singleton, List.not_mem_nil, or_false] at ht
  rcases ht with rfl | rfl | rfl | rfl | rfl | rfl | rfl | rfl | rfl | rfl | rfl | rfl | rfl |
    rfl | rfl | rfl | rfl | rfl <;>
  exact ⟨by decide, by norm_num [samplePoint]⟩

/-- Witness of C11: the first entry (5, 2) has 8 quanta and sample point 3/4. -/
theorem canTiming_quanta_and_sample_point_witness :
    (8 ≤ 1 + 5 + 2 ∧ 1 + 5 + 2 ≤ 25) ∧
      ((68 : ℚ) / 100 ≤ samplePoint ⟨5, 2⟩ ∧ samplePoint ⟨5, 2⟩ ≤ (78 : ℚ) / 100) :=
  canTiming_quanta_and_sample_point ⟨5, 2⟩ (by decide)

/-! ## Properties of the initialisation -/

theorem loop_true_lt (clock baud btr : Nat) (l : List tCanBusTiming) (v : Nat)
    (h : CanGetSpeedConfig.loop clock baud btr l = some (true, v)) : v < 2 ^ 32 := by
  induction l with
  | nil => simp [CanGetSpeedConfig.loop] at h
  | cons t rest ih =>
    simp only [CanGetSpeedConfig.loop] at h
    split at h
    · cases h
    · split at h
      · split at h
        · simp only [Option.some.injEq, Prod.mk.injEq, true_and] at h
          rw [← h]
          exact Nat.or_lt_two_pow (Nat.mod_lt _ (by decide)) (Nat.mod_lt _ (by decide))
        · exact ih h
      · exact ih h

theorem loop_false_btr (clock baud btr : Nat) (l : List tCanBusTiming) (b : Nat)
    (h : CanGetSpeedConfig.loop clock baud btr l = some (false, b)) : b = btr := by
  induction l with
  | nil =>
    simp only [CanGetSpeedConfig.loop, Option.some.injEq, Prod.mk.injEq, true_and] at h
    exact h.symm
  | cons t rest ih =>
    simp only [CanGetSpeedConfig.loop] at h
    split at h
    · cases h
    · split at h
      · split at h
        · simp at h
        · exact ih h
      · exact ih h

/-- When the search succeeds with `v`, `CanInit` returns after its six register writes. -/
theorem CanInit_of_found (cfg : Config) (btr0 : Nat) (m : Machine) (v : Nat)
    (h : CanGetSpeedConfig cfg.BOOT_CPU_SYSTEM_SPEED_KHZ
      ((cfg.BOOT_COM_CAN_BAUDRATE / 1000) % 2 ^ 16) btr0 = some (true, v)) :
    CanInit cfg btr0 m = some (Outcome.returned ()
      ((((((m.write Reg.CANAFMR 2).write Reg.CAN1MOD 1).write Reg.CAN1IER 0).write
        Reg.CAN1GSR 0).write Reg.CAN1BTR v).write Reg.CAN1MOD 0)) := by
  simp only [CanInit, h]
  simp [ASSERT_RT]

/-- When the search reports failure, `CanInit` stops in the assertion after its first four
register writes. -/
theorem CanInit_of_not_found (cfg : Config) (btr0 : Nat) (m : Machine) (b : Nat)
    (h : CanGetSpeedConfig cfg.BOOT_CPU_SYSTEM_SPEED_KHZ
      ((cfg.BOOT_COM_CAN_BAUDRATE / 1000) % 2 ^ 16) btr0 = some (false, b)) :
    CanInit cfg btr0 m = some (Outcome.assertFailed
      ((((m.write Reg.CANAFMR 2).write Reg.CAN1MOD 1).write Reg.CAN1IER 0).write
        Reg.CAN1GSR 0)) := by
  simp only [CanInit, h]
  simp [ASSERT_RT]

/-- C12: when the timing search succeeds with value `v`, `CanInit` returns and its accesses
are exactly the writes acceptance-filter-mode := 2, mode := 1, interrupt-enable := 0,
global-status := 0, bus-timing := v, mode := 0, in this order. Every write of the bus-timing
register happens with the mode register holding 1 (reset mode), and at the end the
interrupt-enable register is 0, the bus-timing register is `v` and the mode register is 0. -/
theorem CanInit_register_writes (cfg : Config) (btr0 : Nat) (m : Machine) (v : Nat)
    (h : CanGetSpeedConfig cfg.BOOT_CPU_SYSTEM_SPEED_KHZ
      ((cfg.BOOT_COM_CAN_BAUDRATE / 1000) % 2 ^ 16) btr0 = some (true, v)) :
    ∃ m', CanInit cfg btr0 m = some (Outcome.returned () m') ∧
      m'.log = m.log ++
        [ Event.write Reg.CANAFMR 2, Event.write Reg.CAN1MOD 1, Event.write Reg.CAN1IER 0,
          Event.write Reg.CAN1GSR 0, Event.write Reg.CAN1BTR v, Event.write Reg.CAN1MOD 0 ] ∧
      (∀ i x,
        [ Event.write Reg.CANAFMR 2, Event.write Reg.CAN1MOD 1, Event.write Reg.CAN1IER 0,
          Event.write Reg.CAN1GSR 0, Event.write Reg.CAN1BTR v, Event.write Reg.CAN1MOD 0 ][i]?
            = some (Event.write Reg.CAN1BTR x) →
        replayWrites m.regs
          ([ Event.write Reg.CANAFMR 2, Event.write Reg.CAN1MOD 1, Event.write Reg.CAN1IER 0,
            Event.write Reg.CAN1GSR 0, Event.write Reg.CAN1BTR v,
            Event.write Reg.CAN1MOD 0 ].take i) Reg.CAN1MOD = 1) ∧
      m'.regs Reg.CAN1IER = 0 ∧ m'.regs Reg.CAN1BTR = v ∧ m'.regs Reg.CAN1MOD = 0 ∧
      m'.regs Reg.CANAFMR = 2 := by
  have hv : v < 2 ^ 32 := loop_true_lt _ _ _ _ v h
  have hv2 : v % 2 ^ 32 = v := Nat.mod_eq_of_lt hv
  refine ⟨_, CanInit_of_found cfg btr0 m v h, ?_, ?_, ?_, ?_, ?_, ?_⟩
  · simp only [Machine.write, Reg.width, hv2, List.append_assoc, List.singleton_append,
      List.cons_append, List.nil_append]
    rfl
  · intro i x hi
    rcases i with _ | _ | _ | _ | _ | _ | i
    · simp at hi
    · simp at hi
    · simp at hi
    · simp at hi
    · simp [replayWrites, Function.update]
    · simp at hi
    · simp at hi
  · simp [Machine.write, Function.update]
  · simp only [Machine.write, Reg.width, hv2]
    simp [Function.update]
  · simp [Machine.write, Function.update]
  · simp [Machine.write, Function.update, Reg.width]

/-- Witness of C12: 48000 kHz and 500000 bit/s, where the search gives 0x14000B. -/
theorem CanInit_register_writes_witness :
    ∃ m', CanInit demoConfig 0 (demoMachine 0 0 0 0) = some (Outcome.returned () m') ∧
      m'.log = (demoMachine 0 0 0 0).log ++
        [ Event.write Reg.CANAFMR 2, Event.write Reg.CAN1MOD 1, Event.write Reg.CAN1IER 0,
          Event.write Reg.CAN1GSR 0, Event.write Reg.CAN1BTR 0x14000B,
          Event.write Reg.CAN1MOD 0 ] ∧
      (∀ i x,
        [ Event.write Reg.CANAFMR 2, Event.write Reg.CAN1MOD 1, Event.write Reg.CAN1IER 0,
          Event.write Reg.CAN1GSR 0, Event.write Reg.CAN1BTR 0x14000B,
          Event.write Reg.CAN1MOD 0 ][i]? = some (Event.write Reg.CAN1BTR x) →
        replayWrites (demoMachine 0 0 0 0).regs
          ([ Event.write Reg.CANAFMR 2, Event.write Reg.CAN1MOD 1, Event.write Reg.CAN1IER 0,
            Event.write Reg.CAN1GSR 0, Event.write Reg.CAN1BTR 0x14000B,
            Event.write Reg.CAN1MOD 0 ].take i) Reg.CAN1MOD = 1) ∧
      m'.regs Reg.CAN1IER = 0 ∧ m'.regs Reg.CAN1BTR = 0x14000B ∧ m'.regs Reg.CAN1MOD = 0 ∧
      m'.regs Reg.CANAFMR = 2 :=
  CanInit_register_writes demoConfig 0 (demoMachine 0 0 0 0) 0x14000B (by decide)

/-- C13: `CanInit` ends in the fatal assertion exactly when
`CanGetSpeedConfig(BOOT_COM_CAN_BAUDRATE/1000)` returns `BLT_FALSE` for the configured clock.
It has then performed only the first four writes: the bus-timing register is not written and
keeps its content, and the mode register holds 1 (reset mode). -/
theorem CanInit_assert_iff_not_found (cfg : Config) (btr0 : Nat) (m : Machine) :
    ((∃ m', CanInit cfg btr0 m = some (Outcome.assertFailed m')) ↔
      ∃ b, CanGetSpeedConfig cfg.BOOT_CPU_SYSTEM_SPEED_KHZ
        ((cfg.BOOT_COM_CAN_BAUDRATE / 1000) % 2 ^ 16) btr0 = some (false, b)) ∧
    ((∃ b, CanGetSpeedConfig cfg.BOOT_CPU_SYSTEM_SPEED_KHZ
        ((cfg.BOOT_COM_CAN_BAUDRATE / 1000) % 2 ^ 16) btr0 = some (false, b)) →
      ∃ m', CanInit cfg btr0 m = some (Outcome.assertFailed m') ∧
        m'.log = m.log ++
          [ Event.write Reg.CANAFMR 2, Event.write Reg.CAN1MOD 1, Event.write Reg.CAN1IER 0,
            Event.write Reg.CAN1GSR 0 ] ∧
        m'.regs Reg.CAN1BTR = m.regs Reg.CAN1BTR ∧ m'.regs Reg.CAN1MOD = 1) := by
  have key : (∃ b, CanGetSpeedConfig cfg.BOOT_CPU_SYSTEM_SPEED_KHZ
        ((cfg.BOOT_COM_CAN_BAUDRATE / 1000) % 2 ^ 16) btr0 = some (false, b)) →
      ∃ m', CanInit cfg btr0 m = some (Outcome.assertFailed m') ∧
        m'.log = m.log ++
          [ Event.write Reg.CANAFMR 2, Event.write Reg.CAN1MOD 1, Event.write Reg.CAN1IER 0,
            Event.write Reg.CAN1GSR 0 ] ∧
        m'.regs Reg.CAN1BTR = m.regs Reg.CAN1BTR ∧ m'.regs Reg.CAN1MOD = 1 := by
    rintro ⟨b, hb⟩
    refine ⟨_, CanInit_of_not_found cfg btr0 m b hb, ?_, ?_, ?_⟩
    · simp only [Machine.write, Reg.width, List.append_assoc, List.singleton_append,
        List.cons_append, List.nil_append]
      rfl
    · simp [Machine.write, Function.update]
    · simp [Machine.write, Function.update, Reg.width]
  refine ⟨⟨?_, fun hb => ?_⟩, key⟩
  · rintro ⟨m', hm'⟩
    cases hres : CanGetSpeedConfig cfg.BOOT_CPU_SYSTEM_SPEED_KHZ
        ((cfg.BOOT_COM_CAN_BAUDRATE / 1000) % 2 ^ 16) btr0 with
    | none =>
      simp only [CanInit, hres] at hm'
      cases hm'
    | some r =>
      obtain ⟨flag, b⟩ := r
      cases flag with
      | false => exact ⟨b, rfl⟩
      | true =>
        rw [CanInit_of_found cfg btr0 m b hres] at hm'
        simp at hm'
  · obtain ⟨m', hm', _⟩ := key hb
    exact ⟨m', hm'⟩

/-- Witness of C13: 48000 kHz and 333000 bit/s, for which the search fails. -/
theorem CanInit_assert_iff_not_found_witness :
    ∃ m', CanInit ⟨48000, 333000, 0x7E1, 0x667⟩ 0 (demoMachine 0 0 0 7)
        = some (Outcome.assertFailed m') ∧
      m'.log = (demoMachine 0 0 0 7).log ++
        [ Event.write Reg.CANAFMR 2, Event.write Reg.CAN1MOD 1, Event.write Reg.CAN1IER 0,
          Event.write Reg.CAN1GSR 0 ] ∧
      m'.regs Reg.CAN1BTR = (demoMachine 0 0 0 7).regs Reg.CAN1BTR ∧
      m'.regs Reg.CAN1MOD = 1 :=
  (CanInit_assert_iff_not_found ⟨48000, 333000, 0x7E1, 0x667⟩ 0 (demoMachine 0 0 0 7)).2
    ⟨0, by decide⟩

/-! ## Agreement with the reference search and order of the table -/

theorem find?_of_split {α : Type} (p : α → Bool) (pre post : List α) (t : α)
    (hpre : ∀ u ∈ pre, p u = false) (ht : p t = true) :
    (pre ++ t :: post).find? p = some t := by
  induction pre with
  | nil => simp [List.find?, ht]
  | cons a as ih =>
    have ha : p a = false := hpre a (List.mem_cons_self _ _)
    have has : ∀ u ∈ as, p u = false := fun u hu => hpre u (List.mem_cons_of_mem _ hu)
    simp [List.find?, ha, ih has]

theorem resolveReference_of_split (clock baud : Nat) (pre post : List tCanBusTiming)
    (t : tCanBusTiming) (hsplit : canTiming = pre ++ t :: post)
    (hpre : ∀ u ∈ pre, ¬ validCandidate clock baud u) (ht : validCandidate clock baud t) :
    resolveReference clock baud = some (btrValue clock baud t) := by
  unfold resolveReference
  rw [hsplit, find?_of_split _ pre post t (fun u hu => by simpa using hpre u hu)
    (by simpa using ht)]
  rfl

theorem resolveReference_of_none (clock baud : Nat)
    (h : ∀ t ∈ canTiming, ¬ validCandidate clock baud t) :
    resolveReference clock baud = none := by
  unfold resolveReference
  have : canTiming.find? (fun t => decide (validCandidate clock baud t)) = none := by
    rw [List.find?_eq_none]
    intro x hx
    simpa using h x hx
  rw [this]; rfl

theorem canTiming_quanta_increasing :
    List.Pairwise (fun a b => totalQuanta a < totalQuanta b) canTiming := by
  decide

/-- Of two valid candidates the one with fewer quanta has the larger prescaler. -/
theorem prescaler_lt_of_quanta_lt (clock baud : Nat) (t u : tCanBusTiming)
    (ht : validCandidate clock baud t) (hu : validCandidate clock baud u)
    (hlt : totalQuanta t < totalQuanta u) :
    clock / (baud * totalQuanta u) < clock / (baud * totalQuanta t) := by
  obtain ⟨tm, t1, _⟩ := ht
  obtain ⟨um, _, _⟩ := hu
  have hb : 0 < baud := by
    rcases Nat.eq_zero_or_pos baud with h0 | h0
    · subst h0; simp at t1
    · exact h0
  have hct : baud * totalQuanta t * (clock / (baud * totalQuanta t)) = clock :=
    Nat.mul_div_cancel' (Nat.dvd_of_mod_eq_zero tm)
  have hcu : baud * totalQuanta u * (clock / (baud * totalQuanta u)) = clock :=
    Nat.mul_div_cancel' (Nat.dvd_of_mod_eq_zero um)
  by_contra hge
  have hge2 : clock / (baud * totalQuanta t) ≤ clock / (baud * totalQuanta u) := by omega
  have hD : baud * totalQuanta t < baud * totalQuanta u := Nat.mul_lt_mul_of_pos_left hlt hb
  have h1 : baud * totalQuanta t * (clock / (baud * totalQuanta t))
      < baud * totalQuanta u * (clock / (baud * totalQuanta t)) :=
    Nat.mul_lt_mul_of_pos_right hD t1
  have h2 : baud * totalQuanta u * (clock / (baud * totalQuanta t))
      ≤ baud * totalQuanta u * (clock / (baud * totalQuanta u)) :=
    Nat.mul_le_mul_left _ hge2
  omega

/-- C14: the prescaler is held in a 16-bit variable, but for a baudrate in 10..1000 and a
clock below 80 * 65536 = 5242880 kHz the exact quotient of every table entry is below 65536,
and `CanGetSpeedConfig` agrees with the reference search that uses the exact quotient: same
success flag, same stored value, `*btr` untouched on failure. -/
theorem CanGetSpeedConfig_agrees_with_reference (clock baud btr : Nat) (hlo : 10 ≤ baud)
    (_hhi : baud ≤ 1000) (hclk : clock < 80 * 65536) :
    (∀ t ∈ canTiming, clock / (baud * (t.tseg1 + t.tseg2 + 1)) < 2 ^ 16) ∧
    CanGetSpeedConfig clock baud btr
      = some (match resolveReference clock baud with
          | some v => (true, v)
          | none => (false, btr)) := by
  constructor
  · intro t ht
    have hq := (canTiming_quanta t ht).1
    unfold totalQuanta at hq
    have hpos : 0 < baud * (t.tseg1 + t.tseg2 + 1) := Nat.mul_pos (by omega) (by omega)
    rw [Nat.div_lt_iff_lt_mul hpos]
    have h1 : 10 * 8 ≤ baud * (t.tseg1 + t.tseg2 + 1) := Nat.mul_le_mul hlo hq
    have h2 : 2 ^ 16 * (10 * 8) ≤ 2 ^ 16 * (baud * (t.tseg1 + t.tseg2 + 1)) :=
      Nat.mul_le_mul_left _ h1
    omega
  · by_cases h : ∃ t ∈ canTiming, validCandidate clock baud t
    · obtain ⟨pre, t, post, hsplit, hpre, ht⟩ :=
        exists_first_split (validCandidate clock baud) canTiming h
      have htm : t ∈ canTiming := by rw [hsplit]; simp
      rw [resolveReference_of_split clock baud pre post t hsplit hpre ht,
        CanGetSpeedConfig_of_split clock baud btr pre post t hsplit hpre ht,
        btrValue_eq_sum clock baud t htm ht.2.1 ht.2.2]
    · have hnone : ∀ t ∈ canTiming, ¬ validCandidate clock baud t :=
        fun t ht hv => h ⟨t, ht, hv⟩
      rw [resolveReference_of_none clock baud hnone,
        CanGetSpeedConfig_none_valid_small_clock clock baud btr hlo hclk hnone]

/-- Witness of C14: 48000 kHz at 500 kbps (both succeed with 0x14000B). -/
theorem CanGetSpeedConfig_agrees_with_reference_witness :
    ((∀ t ∈ canTiming, 48000 / (500 * (t.tseg1 + t.tseg2 + 1)) < 2 ^ 16) ∧
      CanGetSpeedConfig 48000 500 7
        = some (match resolveReference 48000 500 with
            | some v => (true, v)
            | none => (false, 7))) ∧
    resolveReference 48000 500 = some 0x14000B ∧ resolveReference 48000 333 = none :=
  ⟨CanGetSpeedConfig_agrees_with_reference 48000 500 7 (by decide) (by decide) (by decide),
    by decide, by decide⟩

/-- C15: the total quanta of the table entries, in table order, are exactly 8, 9, ..., 25.
Hence, for a pair with a valid candidate, `CanGetSpeedConfig` succeeds with the word of a
valid entry that has fewer quanta and a larger prescaler than every other valid entry. -/
theorem canTiming_order_fewest_quanta :
    canTiming.map totalQuanta
      = [8, 9, 10, 11, 12, 13, 14, 15, 16, 17, 18, 19, 20, 21, 22, 23, 24, 25] ∧
    ∀ clock baud btr, (∃ t ∈ canTiming, validCandidate clock baud t) →
      ∃ t ∈ canTiming, validCandidate clock baud t ∧
        CanGetSpeedConfig clock baud btr = some (true, btrValue clock baud t) ∧
        ∀ u ∈ canTiming, validCandidate clock baud u → u ≠ t →
          totalQuanta t < totalQuanta u ∧
          clock / (baud * totalQuanta u) < clock / (baud * totalQuanta t) := by
  refine ⟨by decide, ?_⟩
  intro clock baud btr h
  obtain ⟨pre, t, post, hsplit, hpre, ht⟩ :=
    exists_first_split (validCandidate clock baud) canTiming h
  have htm : t ∈ canTiming := by rw [hsplit]; simp
  refine ⟨t, htm, ht, ?_, ?_⟩
  · rw [CanGetSpeedConfig_of_split clock baud btr pre post t hsplit hpre ht,
      btrValue_eq_sum clock baud t htm ht.2.1 ht.2.2]
  · intro u hum hu hne
    have hpw := canTiming_quanta_increasing
    rw [hsplit, List.pairwise_append] at hpw
    have hpost : ∀ b ∈ post, totalQuanta t < totalQuanta b :=
      (List.pairwise_cons.mp hpw.2.1).1
    rw [hsplit, List.mem_append, List.mem_cons] at hum
    have hlt : totalQuanta t < totalQuanta u := by
      rcases hum with hin | heq | hin
      · exact absurd hu (hpre u hin)
      · exact absurd heq hne
      · exact hpost u hin
    exact ⟨hlt, prescaler_lt_of_quanta_lt clock baud t u ht hu hlt⟩

/-- Witness of C15: at 48000 kHz and 125 kbps the entries with 8, 12, 16 and 24 quanta are
valid; the search takes the one with 8 quanta, prescaler 48. -/
theorem canTiming_order_fewest_quanta_witness :
    (∃ t ∈ canTiming, validCandidate 48000 125 t ∧
        CanGetSpeedConfig 48000 125 0 = some (true, btrValue 48000 125 t) ∧
        ∀ u ∈ canTiming, validCandidate 48000 125 u → u ≠ t →
          totalQuanta t < totalQuanta u ∧
          48000 / (125 * totalQuanta u) < 48000 / (125 * totalQuanta t)) ∧
    CanGetSpeedConfig 48000 125 0 = some (true, btrValue 48000 125 ⟨5, 2⟩) ∧
    validCandidate 48000 125 ⟨8, 3⟩ ∧ 48000 / (125 * totalQuanta ⟨5, 2⟩) = 48 :=
  ⟨canTiming_order_fewest_quanta.2 48000 125 0 ⟨⟨5, 2⟩, by decide, by decide⟩,
    by decide, by decide, by decide⟩

/-! ## Safety and termination of the search loop -/

theorem canTiming_length : canTiming.length = 18 := rfl

/-- For a non-zero baudrate the counted loop, started at counter `cnt` with `r` entries left
and a bound above `r`, ends normally after at most `r` loop bodies, with the result of the
search over the entries from `cnt` on. -/
theorem count_agrees (clock baud btr : Nat) (hb : baud ≠ 0) :
    ∀ (r cnt fuel n : Nat), cnt + r = canTiming.length → r < fuel →
      ∃ flag v k, CanGetSpeedConfig.count clock baud fuel cnt btr n = LoopEnd.done flag v (n + k) ∧
        k ≤ r ∧ CanGetSpeedConfig.loop clock baud btr (canTiming.drop cnt) = some (flag, v) := by
  intro r
  induction r with
  | zero =>
    intro cnt fuel n hcnt hfuel
    obtain ⟨f, rfl⟩ : ∃ f, fuel = f + 1 := ⟨fuel - 1, by omega⟩
    have hge : ¬ cnt < canTiming.length := by omega
    have hdrop : canTiming.drop cnt = [] := List.drop_eq_nil_of_le (by omega)
    refine ⟨false, btr, 0, ?_, Nat.le_refl 0, ?_⟩
    · simp only [CanGetSpeedConfig.count, if_neg hge, Nat.add_zero]
    · rw [hdrop]; rfl
  | succ r ih =>
    intro cnt fuel n hcnt hfuel
    obtain ⟨f, rfl⟩ : ∃ f, fuel = f + 1 := ⟨fuel - 1, by omega⟩
    have hlt : cnt < canTiming.length := by omega
    have hlen := canTiming_length
    have hnext : (cnt + 1) % 2 ^ 8 = cnt + 1 := Nat.mod_eq_of_lt (by omega)
    have hd : baud * ((canTiming[cnt]).tseg1 + (canTiming[cnt]).tseg2 + 1) ≠ 0 :=
      Nat.mul_ne_zero hb (by omega)
    obtain ⟨flag, v, k, hk1, hk2, hk3⟩ := ih (cnt + 1) f (n + 1) (by omega) (by omega)
    rw [List.drop_eq_getElem_cons hlt]
    simp only [CanGetSpeedConfig.count, if_pos hlt, List.getElem?_eq_getElem hlt,
      CanGetSpeedConfig.loop, if_neg hd, hnext]
    by_cases hm : clock % (baud * ((canTiming[cnt]).tseg1 + (canTiming[cnt]).tseg2 + 1)) = 0
    · simp only [if_pos hm]
      by_cases hr : (clock / (baud * ((canTiming[cnt]).tseg1 + (canTiming[cnt]).tseg2 + 1)))
            % 2 ^ 16 > 0 ∧
          (clock / (baud * ((canTiming[cnt]).tseg1 + (canTiming[cnt]).tseg2 + 1)))
            % 2 ^ 16 ≤ 1024
      · simp only [if_pos hr]
        exact ⟨true, _, 1, rfl, by omega, rfl⟩
      · simp only [if_neg hr]
        exact ⟨flag, v, k + 1, by rw [hk1]; congr 1; omega, by omega, hk3⟩
    · simp only [if_neg hm]
      exact ⟨flag, v, k + 1, by rw [hk1]; congr 1; omega, by omega, hk3⟩

/-- C16: for a baudrate in 10..1000 every divisor `baud * (tseg1 + tseg2 + 1)` lies in
80..25000, so it is not zero and fits a signed 32-bit integer; the loop, run with its counter
explicit and any bound above the 18 table entries, neither divides by zero nor reads outside
the table: it ends normally after at most 18 loop bodies with the result of
`CanGetSpeedConfig`. For baudrate 0 the first loop body divides by zero. -/
theorem CanGetSpeedConfig_loop_safe (clock baud btr fuel : Nat) (hlo : 10 ≤ baud)
    (hhi : baud ≤ 1000) (hfuel : 18 < fuel) :
    (∀ t ∈ canTiming, 80 ≤ baud * (t.tseg1 + t.tseg2 + 1) ∧
      baud * (t.tseg1 + t.tseg2 + 1) ≤ 25000 ∧ baud * (t.tseg1 + t.tseg2 + 1) < 2 ^ 31) ∧
    canTiming.length = 18 ∧
    (∃ flag v n, CanGetSpeedConfig.count clock baud fuel 0 btr 0 = LoopEnd.done flag v n ∧
      n ≤ 18 ∧ CanGetSpeedConfig clock baud btr = some (flag, v)) ∧
    (CanGetSpeedConfig clock 0 btr = none ∧
      CanGetSpeedConfig.count clock 0 fuel 0 btr 0 = LoopEnd.divByZero) := by
  refine ⟨?_, rfl, ?_, rfl, ?_⟩
  · intro t ht
    obtain ⟨h8, h25⟩ := canTiming_quanta t ht
    unfold totalQuanta at h8 h25
    have h1 : 10 * 8 ≤ baud * (t.tseg1 + t.tseg2 + 1) := Nat.mul_le_mul hlo h8
    have h2 : baud * (t.tseg1 + t.tseg2 + 1) ≤ 1000 * 25 := Nat.mul_le_mul hhi h25
    omega
  · obtain ⟨flag, v, k, h1, h2, h3⟩ :=
      count_agrees clock baud btr (by omega) 18 0 fuel 0 rfl hfuel
    exact ⟨flag, v, 0 + k, h1, by omega, h3⟩
  · obtain ⟨f, rfl⟩ : ∃ f, fuel = f + 1 := ⟨fuel - 1, by omega⟩
    rfl

/-- Witness of C16: 48000 kHz at 333 kbps: all 18 entries are tried, none matches. -/
theorem CanGetSpeedConfig_loop_safe_witness :
    ((∀ t ∈ canTiming, 80 ≤ 333 * (t.tseg1 + t.tseg2 + 1) ∧
      333 * (t.tseg1 + t.tseg2 + 1) ≤ 25000 ∧ 333 * (t.tseg1 + t.tseg2 + 1) < 2 ^ 31) ∧
    canTiming.length = 18 ∧
    (∃ flag v n, CanGetSpeedConfig.count 48000 333 19 0 7 0 = LoopEnd.done flag v n ∧
      n ≤ 18 ∧ CanGetSpeedConfig 48000 333 7 = some (flag, v)) ∧
    (CanGetSpeedConfig 48000 0 7 = none ∧
      CanGetSpeedConfig.count 48000 0 19 0 7 0 = LoopEnd.divByZero)) ∧
    CanGetSpeedConfig.count 48000 333 19 0 7 0 = LoopEnd.done false 7 18 ∧
    CanGetSpeedConfig.count 48000 500 19 0 7 0 = LoopEnd.done true 0x14000B 1 :=
  ⟨CanGetSpeedConfig_loop_safe 48000 333 7 19 (by decide) (by decide) (by decide),
    by decide, by decide⟩

end OpenBLT
